import Mathlib

/-!
# Verification of the igbo_api suggestion-merge core

Shallow embedding of `src/controllers/words.js` and the examples controller
(`src/unnamed/part_000`, the `examples.js` controller of the same repository).

Modelling conventions:

* MongoDB/mongoose `ObjectId` values are modelled by `OID`: the `s` field is the
  identifier's string form (`toString()` in JS) and the `tag` field models
  JavaScript object identity, so that two distinct runtime objects with the same
  string form are distinct `OID` values.  BSON/value-level comparisons (database
  queries) compare `s`; JavaScript `===`/SameValueZero comparisons (lodash
  `uniq`, `Array.includes`) compare the whole `OID`.
* `mongoose.Types.ObjectId.isValid` is modelled by the `valid` field of `OID`
  (the 24-hex-character format check is a mongoose library detail that depends
  only on the string; we carry its outcome as a field).
* Asynchronous, throwing JavaScript is modelled by the state-and-error monad
  `M`; `Promise.all` over a mapped list is modelled as a left-to-right traversal
  (one fair linearization of the joined concurrent branches).
* Persistence operations consult a storage-failure oracle (`DB.failAt`), so
  that "any persistence failure" claims can be stated; a failing store
  operation performs no mutation and surfaces the oracle's message.
-/

set_option linter.unusedVariables false

namespace IgboApi

/-- A MongoDB ObjectId: `s` is its string form, `tag` models JS object
identity, `valid` the outcome of `mongoose.Types.ObjectId.isValid`. -/
structure OID where
  s : String
  tag : Nat
  valid : Bool
deriving DecidableEq, Repr

/-- `mongoose.Types.ObjectId.isValid`, see the modelling note on `OID`. -/
def isValidObjectId (o : OID) : Bool := o.valid

/-- lodash `uniqBy` keeps the first element for each iteratee value; this is
the accumulator ("seen set") formulation matching lodash's implementation. -/
def uniqByAux {α β : Type} [DecidableEq β] (f : α → β) : List α → List β → List α
  | [], _ => []
  | x :: xs, seen =>
    if f x ∈ seen then uniqByAux f xs seen
    else x :: uniqByAux f xs (f x :: seen)

/-- lodash `uniqBy f l`. -/
def uniqBy {α β : Type} [DecidableEq β] (f : α → β) (l : List α) : List α :=
  uniqByAux f l []

/-- lodash `uniq`: SameValueZero (here: structural) equality on elements. -/
def uniq {α : Type} [DecidableEq α] (l : List α) : List α :=
  uniqBy (fun a => a) l

/-- Spec-side formulation of the Reconciler's dedup (§4.1): keep the first
occurrence of each iteratee value, drop later duplicates. -/
def keepFirstBy {α β : Type} [DecidableEq β] (f : α → β) : List α → List α
  | [] => []
  | x :: xs => x :: (keepFirstBy f xs).filter (fun y => decide (f y ≠ f x))

/-- Canonical Word document (the `Word` model).  The schema itself is not part
of the given sources; fields are the ones read/written by the controllers. -/
structure Word where
  id : OID
  word : String
  wordClass : String
  definitions : List String
  variations : List String
  stems : List String
  examples : List OID
  authorId : Option String
deriving DecidableEq, Repr

/-- Canonical Example document (the `Example` model). -/
structure Example where
  id : OID
  igbo : String
  english : String
  associatedWords : List OID
deriving DecidableEq, Repr

/-- ExampleSuggestion document. -/
structure ExampleSuggestion where
  id : OID
  igbo : String
  english : String
  associatedWords : List OID
  originalExampleId : Option OID
  merged : Option OID
  mergedBy : Option String
deriving DecidableEq, Repr

/-- An example embedded in a word-creation payload (`createWord`'s
`data.examples` entries). -/
structure EmbeddedExample where
  igbo : String
  english : String
deriving DecidableEq, Repr

/-- WordSuggestion document (also stands for GenericWord documents). -/
structure WordSuggestion where
  id : OID
  word : String
  wordClass : String
  definitions : List String
  variations : List String
  stems : List String
  examples : List EmbeddedExample
  originalWordId : Option OID
  authorId : Option String
  merged : Option OID
  mergedBy : Option String
deriving DecidableEq, Repr

/-- A record of one notification handed to `sendMergedEmail`. -/
structure SentEmail where
  dest : String
  word : String
deriving DecidableEq, Repr

/-- The document store plus the environment: a fresh-id counter `ctr`
(client-side ObjectId generation), a persistence-operation counter `tick`
with a storage-failure oracle `failAt`, the user-lookup collaborator
`findUserEmail` (modelled from the spec, §6) and the notification delivery
outcome `deliverOk`. -/
structure DB where
  words : List Word
  examples : List Example
  exampleSuggestions : List ExampleSuggestion
  wordSuggestions : List WordSuggestion
  ctr : Nat
  tick : Nat
  failAt : Nat → Option String
  findUserEmail : String → Option String
  deliverOk : Bool
  sentEmails : List SentEmail

/-- The id the client-side driver generates for the `ctr`-th created document.
Generated ids are syntactically valid; the freshness hypotheses of the
theorems say they do not collide with pre-existing ids. -/
def genId (n : Nat) : OID := ⟨String.mk (List.replicate (n + 1) 'a'), 0, true⟩

/-- State-and-error monad modelling async JS controller code: errors are the
thrown `Error` messages, and state mutations performed before a throw are kept
(no rollback). -/
def M (α : Type) : Type := DB → Except String α × DB

instance : Monad M where
  pure a := fun db => (.ok a, db)
  bind x f := fun db =>
    match x db with
    | (.ok a, db') => f a db'
    | (.error e, db') => (.error e, db')

/-- `throw new Error msg`. -/
def throwM {α : Type} (msg : String) : M α := fun db => (.error msg, db)

/-- Replace-or-append a document in a store, keyed by id string form (mongoose
`save` semantics: update the record with this `_id`, insert if absent). -/
def upsertBy {α : Type} (key : α → String) (x : α) (l : List α) : List α :=
  if l.any (fun y => key y == key x) then
    l.map (fun y => if key y == key x then x else y)
  else l ++ [x]

/-- One storage write: consult the failure oracle, then mutate. -/
def write (f : DB → DB) : M Unit := fun db =>
  match db.failAt db.tick with
  | some msg => (.error msg, { db with tick := db.tick + 1 })
  | none => (.ok (), f { db with tick := db.tick + 1 })

/-! ## Read operations (mongoose queries; value-level id comparison) -/

/-- `Word.findById(id)`. -/
def findWordById (id : OID) : M (Option Word) := fun db =>
  (.ok (db.words.find? (fun w => w.id.s == id.s)), db)

/-- Modelled from the spec: `findExampleSuggestionById` (controller
`exampleSuggestions.js`, not among the given sources) — "Fetch the Example
Suggestion by id" (§4.3 step 1). -/
def findExampleSuggestionById (id : OID) : M (Option ExampleSuggestion) := fun db =>
  (.ok (db.exampleSuggestions.find? (fun e => e.id.s == id.s)), db)

/-- `ExampleSuggestion.find({ associatedWords: id })`: array field query
matches documents whose array contains the value. -/
def findExampleSuggestionsByAssociatedWord (id : OID) : M (List ExampleSuggestion) := fun db =>
  (.ok (db.exampleSuggestions.filter (fun e => e.associatedWords.any (fun a => a.s == id.s))), db)

/-- `Example.find({ associatedWords: { $in: [id] } })` (examples controller). -/
def findExampleByAssociatedWordId (id : OID) : M (List Example) := fun db =>
  (.ok (db.examples.filter (fun e => e.associatedWords.any (fun a => a.s == id.s))), db)

/-- Modelled from the spec: `findWordsWithMatch({ match: { _id }, limit: 1 })`
(query-builder utility, not among the given sources) — re-fetch the canonical
Word by id, §4.4 step 1; population of example docs is irrelevant here. -/
def findWordsWithMatchById (id : OID) : M (List Word) := fun db =>
  (.ok ((db.words.filter (fun w => w.id.s == id.s)).take 1), db)

/-! ## Write operations -/

/-- `document.save()` for an Example. -/
def saveExample (e : Example) : M Example := fun db =>
  match db.failAt db.tick with
  | some msg => (.error msg, { db with tick := db.tick + 1 })
  | none =>
    (.ok e, { db with tick := db.tick + 1,
                      examples := upsertBy (fun x => x.id.s) e db.examples })

/-- `document.save()` for an ExampleSuggestion. -/
def saveExampleSuggestion (e : ExampleSuggestion) : M ExampleSuggestion := fun db =>
  match db.failAt db.tick with
  | some msg => (.error msg, { db with tick := db.tick + 1 })
  | none =>
    (.ok e, { db with tick := db.tick + 1,
                      exampleSuggestions := upsertBy (fun x => x.id.s) e db.exampleSuggestions })

/-- `document.save()` for a WordSuggestion. -/
def saveWordSuggestion (s : WordSuggestion) : M WordSuggestion := fun db =>
  match db.failAt db.tick with
  | some msg => (.error msg, { db with tick := db.tick + 1 })
  | none =>
    (.ok s, { db with tick := db.tick + 1,
                      wordSuggestions := upsertBy (fun x => x.id.s) s db.wordSuggestions })

/-- `document.save()` for a Word. -/
def saveWord (w : Word) : M Word := fun db =>
  match db.failAt db.tick with
  | some msg => (.error msg, { db with tick := db.tick + 1 })
  | none =>
    (.ok w, { db with tick := db.tick + 1,
                      words := upsertBy (fun x => x.id.s) w db.words })

/-- Fields of a new Example (`createExample`'s `data`). -/
structure ExampleData where
  igbo : String
  english : String
  associatedWords : List OID
deriving DecidableEq, Repr

/-- `createExample` (examples controller lines 20–23): `new Example(data)`
allocates the client-side id, then `example.save()` persists. -/
def createExample (d : ExampleData) : M Example := fun db =>
  let e : Example :=
    { id := genId db.ctr, igbo := d.igbo, english := d.english,
      associatedWords := d.associatedWords }
  let db0 := { db with ctr := db.ctr + 1 }
  match db0.failAt db0.tick with
  | some msg => (.error msg, { db0 with tick := db0.tick + 1 })
  | none =>
    (.ok e, { db0 with tick := db0.tick + 1,
                       examples := upsertBy (fun x => x.id.s) e db0.examples })

/-- Fields destructured by `createWord` from its `data` argument. -/
structure WordData where
  word : String
  wordClass : String
  definitions : List String
  variations : List String
  stems : List String
  examples : List EmbeddedExample
deriving DecidableEq, Repr

/-- `suggestionDoc.toObject()` as consumed by `createWord`. -/
def WordSuggestion.toWordData (s : WordSuggestion) : WordData :=
  { word := s.word, wordClass := s.wordClass, definitions := s.definitions,
    variations := s.variations, stems := s.stems, examples := s.examples }

/-- `new Word(wordData)` + first `newWord.save()` (words.js lines 130–131):
only the destructured scalar/array fields are set; `examples` starts empty and
`authorId` is not part of `wordData`. -/
def createWordDoc (d : WordData) : M Word := fun db =>
  let w : Word :=
    { id := genId db.ctr, word := d.word, wordClass := d.wordClass,
      definitions := d.definitions, variations := d.variations,
      stems := d.stems, examples := [], authorId := none }
  let db0 := { db with ctr := db.ctr + 1 }
  match db0.failAt db0.tick with
  | some msg => (.error msg, { db0 with tick := db0.tick + 1 })
  | none =>
    (.ok w, { db0 with tick := db0.tick + 1,
                       words := upsertBy (fun x => x.id.s) w db0.words })

/-- `Word.findOneAndUpdate({_id}, suggestionDoc.toObject())`: one storage
round-trip; returns the pre-image and overwrites the matched document's
schema fields with the suggestion's (the `_id` and the `examples` reference
list are untouched by the suggestion payload). -/
def applyWordSuggestion (w : Word) (s : WordSuggestion) : Word :=
  { w with word := s.word, wordClass := s.wordClass, definitions := s.definitions,
           variations := s.variations, stems := s.stems, authorId := s.authorId }

def wordFindOneAndUpdate (id? : Option OID) (s : WordSuggestion) : M (Option Word) := fun db =>
  match db.failAt db.tick with
  | some msg => (.error msg, { db with tick := db.tick + 1 })
  | none =>
    let db1 := { db with tick := db.tick + 1 }
    match id? with
    | none => (.ok none, db1)
    | some oid =>
      match db1.words.find? (fun w => w.id.s == oid.s) with
      | none => (.ok none, db1)
      | some old =>
        let newWords := db1.words.map (fun w => if w.id.s == oid.s then applyWordSuggestion w s else w)
        (.ok (some old), { db1 with words := newWords })

/-- `Example.findOneAndUpdate({_id}, exampleSuggestion.toObject())`. -/
def applyExampleSuggestion (e : Example) (s : ExampleSuggestion) : Example :=
  { e with igbo := s.igbo, english := s.english, associatedWords := s.associatedWords }

def exampleFindOneAndUpdate (id? : Option OID) (s : ExampleSuggestion) : M (Option Example) := fun db =>
  match db.failAt db.tick with
  | some msg => (.error msg, { db with tick := db.tick + 1 })
  | none =>
    let db1 := { db with tick := db.tick + 1 }
    match id? with
    | none => (.ok none, db1)
    | some oid =>
      match db1.examples.find? (fun e => e.id.s == oid.s) with
      | none => (.ok none, db1)
      | some old =>
        let newExamples := db1.examples.map (fun e => if e.id.s == oid.s then applyExampleSuggestion e s else e)
        (.ok (some old), { db1 with examples := newExamples })

/-- `Word.deleteOne({ _id: id })`: removes the first matching document. -/
def wordDeleteOne (id : OID) : M Unit :=
  write (fun db => { db with words := db.words.eraseP (fun w => w.id.s == id.s) })

/-- Modelled from the spec: `deleteWordSuggestionsByOriginalWordId`
(controller `wordSuggestions.js`, not among the given sources) — "Delete all
Word Suggestions whose `originalWordId` equals the deleted id" (§4.5 step 6). -/
def deleteWordSuggestionsByOriginalWordId (id : OID) : M Unit :=
  write (fun db =>
    let keep := db.wordSuggestions.filter (fun s => !(match s.originalWordId with | some o => o.s == id.s | none => false))
    { db with wordSuggestions := keep })

/-- Modelled from the spec: `updateDocumentMerge` (controllers/utils, not among
the given sources) — §4.4.1: "Stamp the suggestion with merge metadata (merger
identity …)", an in-memory mutation; "Persist the outer suggestion's stamp
last" via the explicit `save` that follows in the callers. -/
def updateDocumentMerge (s : WordSuggestion) (originalDocId : OID) (mergedBy : String) : WordSuggestion :=
  { s with merged := some originalDocId, mergedBy := some mergedBy }

/-- `updateDocumentMerge` applied to an ExampleSuggestion (JS is duck-typed;
same spec-modelled stamping). -/
def updateDocumentMergeES (s : ExampleSuggestion) (originalDocId : OID) (mergedBy : String) : ExampleSuggestion :=
  { s with merged := some originalDocId, mergedBy := some mergedBy }

/-! ## Example Merge Engine (examples controller) -/

/-- `mergeIntoExample` (examples controller lines 83–92): update-in-place via
`findOneAndUpdate`, `NotFound` if no match, stamp the suggestion (in memory,
see `updateDocumentMerge`), return the pre-image.  No catch: errors propagate
unmodified. -/
def mergeIntoExample (exampleSuggestion : ExampleSuggestion) (mergedBy : String) : M Example := do
  let old? ← exampleFindOneAndUpdate exampleSuggestion.originalExampleId exampleSuggestion
  match old? with
  | none => throwM "Example doesn't exist"
  | some exampleDoc =>
    let _ := updateDocumentMergeES exampleSuggestion exampleDoc.id mergedBy
    pure exampleDoc

/-- `.catch(() => { throw new Error(msg) })`: replace any failure's message. -/
def catchWith {α : Type} (msg : String) (x : M α) : M α := fun db =>
  match x db with
  | (.error _, db') => (.error msg, db')
  | ok => ok

/-- `.catch((error) => { throw new Error(error.message) })` (words.js line
180–182): rethrow, preserving the message. -/
def rethrowWithMessage {α : Type} (x : M α) : M α := fun db =>
  match x db with
  | (.error e, db') => (.error e, db')
  | ok => ok

/-- `createExampleFromSuggestion` (examples controller lines 95–104): create a
canonical Example from the suggestion's fields, stamp the suggestion; any
failure inside is re-wrapped into the fixed generic message. -/
def createExampleFromSuggestion (exampleSuggestion : ExampleSuggestion) (mergedBy : String) : M Example :=
  catchWith "An error occurred while saving the new example." do
    let exampleDoc ← createExample
      { igbo := exampleSuggestion.igbo, english := exampleSuggestion.english,
        associatedWords := exampleSuggestion.associatedWords }
    let _ := updateDocumentMergeES exampleSuggestion exampleDoc.id mergedBy
    pure exampleDoc

/-- The `Promise.all(map(associatedWords, …Word.findById…))` existence check
of `executeMergeExample` (lines 122–128), as a left-to-right traversal. -/
def checkAssociatedWordsExist : List OID → M Unit
  | [] => pure ()
  | a :: rest => do
    let w? ← findWordById a
    match w? with
    | none => throwM "Example suggestion associated words can only contain Word ids before merging"
    | some _ => checkAssociatedWordsExist rest

/-- `executeMergeExample` (examples controller lines 107–137). -/
def executeMergeExample (exampleSuggestionId : OID) (mergedBy : String) : M Example := do
  let es? ← findExampleSuggestionById exampleSuggestionId
  match es? with
  | none => throwM "There is no associated example suggestion, double check your provided data"
  | some exampleSuggestion =>
    if exampleSuggestion.igbo = "" ∧ exampleSuggestion.english = "" then
      throwM "Required information is missing, double check your provided data"
    else if exampleSuggestion.associatedWords.any (fun a => !(isValidObjectId a)) then
      throwM "Invalid id found in associatedWords"
    else do
      checkAssociatedWordsExist exampleSuggestion.associatedWords
      if exampleSuggestion.associatedWords.length ≠ (uniq exampleSuggestion.associatedWords).length then
        throwM "Duplicates are not allows in associated words"
      else
        match exampleSuggestion.originalExampleId with
        | some _ => mergeIntoExample exampleSuggestion mergedBy
        | none => createExampleFromSuggestion exampleSuggestion mergedBy

/-! ## Word Merge Engine (words.js) -/

/-- The mutation performed on one nested ExampleSuggestion in
`updateSuggestionAfterMerge` (lines 153–163): drop every associated word whose
string form is the Word Suggestion's own id, then push the canonical Word's id
unless already present (`Array.includes`: SameValueZero, modelled as
structural membership). -/
def relinkNestedAssociatedWords (l : List OID) (suggestionId : OID) (wordId : OID) : List OID :=
  let filtered := l.filter (fun a => !(a.s == suggestionId.s))
  if wordId ∈ filtered then filtered else filtered ++ [wordId]

/-- One iteration of the `Promise.all(map(exampleSuggestions, …))` cascade
(words.js lines 152–166): mutate, persist, then run the Example Merge Engine
on the saved suggestion's id with the same merger identity. -/
def mergeNestedExampleSuggestion (suggestionId wordId : OID) (mergedBy : String)
    (exampleSuggestion : ExampleSuggestion) : M Example := do
  let updated := { exampleSuggestion with
    associatedWords := relinkNestedAssociatedWords exampleSuggestion.associatedWords suggestionId wordId }
  let updatedExampleSuggestion ← saveExampleSuggestion updated
  executeMergeExample updatedExampleSuggestion.id mergedBy

/-- The joined cascade over all fetched nested Example Suggestions, as a
left-to-right traversal. -/
def cascadeNestedExampleSuggestions (suggestionId wordId : OID) (mergedBy : String) :
    List ExampleSuggestion → M Unit
  | [] => pure ()
  | es :: rest => do
    let _ ← mergeNestedExampleSuggestion suggestionId wordId mergedBy es
    cascadeNestedExampleSuggestions suggestionId wordId mergedBy rest

/-- `updateSuggestionAfterMerge` (words.js lines 149–168): stamp the outer
suggestion in memory, fetch every ExampleSuggestion referencing the outer
suggestion's own id, run the nested cascade, then persist the stamped outer
suggestion last. -/
def updateSuggestionAfterMerge (suggestionDoc : WordSuggestion) (originalWordDoc : Word)
    (mergedBy : String) : M WordSuggestion := do
  let updatedSuggestionDoc := updateDocumentMerge suggestionDoc originalWordDoc.id mergedBy
  let exampleSuggestions ← findExampleSuggestionsByAssociatedWord suggestionDoc.id
  cascadeNestedExampleSuggestions suggestionDoc.id originalWordDoc.id mergedBy exampleSuggestions
  saveWordSuggestion updatedSuggestionDoc

/-- The `map(examples, …createExample…)` loop of `createWord` (lines 134–143),
each embedded example becoming a canonical Example associated to the new
Word's id. -/
def createEmbeddedExamples (wordId : OID) : List EmbeddedExample → M (List Example)
  | [] => pure []
  | ex :: rest => do
    let e ← createExample { igbo := ex.igbo, english := ex.english, associatedWords := [wordId] }
    let es ← createEmbeddedExamples wordId rest
    pure (e :: es)

/-- `createWord` (words.js lines 114–147): save the new Word, create its
embedded examples, attach their ids, save again. -/
def createWord (data : WordData) : M Word := do
  let newWord ← createWordDoc data
  let resolvedExamples ← createEmbeddedExamples newWord.id data.examples
  let exampleIds := resolvedExamples.map (fun e => e.id)
  saveWord { newWord with examples := exampleIds }

/-- `mergeIntoWord` (words.js lines 171–183): overwrite the canonical Word,
`NotFound` if absent, run the post-merge cascade with the pre-image, re-fetch
and return the canonical Word.  The catch rethrows with the same message.
The final `none` branch is unreachable here (the record was just updated); in
JS it would return `undefined` and crash later. -/
def mergeIntoWord (suggestionDoc : WordSuggestion) (mergedBy : String) : M Word :=
  rethrowWithMessage do
    let old? ← wordFindOneAndUpdate suggestionDoc.originalWordId suggestionDoc
    match old? with
    | none => throwM "Word doesn't exist"
    | some originalWord => do
      let _ ← updateSuggestionAfterMerge suggestionDoc originalWord mergedBy
      let found ← match suggestionDoc.originalWordId with
        | some oid => findWordsWithMatchById oid
        | none => pure []
      match found.head? with
      | some w => pure w
      | none => throwM "Cannot read properties of undefined"

/-- `createWordFromSuggestion` (words.js lines 186–195): create the Word, run
the post-merge cascade; any failure inside is masked by the fixed generic
message. -/
def createWordFromSuggestion (suggestionDoc : WordSuggestion) (mergedBy : String) : M Word :=
  catchWith "An error occurred while saving the new word." do
    let word ← createWord suggestionDoc.toWordData
    let _ ← updateSuggestionAfterMerge suggestionDoc word mergedBy
    pure word

/-- `handleSendingMergedEmail` (words.js lines 198–210): best-effort
notification.  `findUser` and `sendMergedEmail` are modelled from the spec
(§6): the lookup returns an optional contact address; delivery is
fire-and-forget (the returned promise is not awaited), so a delivery failure
(`deliverOk = false`) leaves no trace and no error channel exists. -/
def handleSendingMergedEmail (result : Word) (db : DB) : DB :=
  match result.authorId with
  | none => db
  | some authorId =>
    match db.findUserEmail authorId with
    | none => db
    | some userEmail =>
      if db.deliverOk then
        { db with sentEmails := db.sentEmails ++ [{ dest := userEmail, word := result.word }] }
      else db

/-- The merge performed by `mergeWord` before notification (words.js lines
218–220): branch on `originalWordId`. -/
def mergeWordCore (suggestionDoc : WordSuggestion) (mergedBy : String) : M Word :=
  match suggestionDoc.originalWordId with
  | some _ => mergeIntoWord suggestionDoc mergedBy
  | none => createWordFromSuggestion suggestionDoc mergedBy

/-- `mergeWord` (words.js lines 214–226): merge, then best-effort
notification, then return the canonical Word. -/
def mergeWord (suggestionDoc : WordSuggestion) (mergedBy : String) : M Word := fun db =>
  match mergeWordCore suggestionDoc mergedBy db with
  | (.ok result, db') => (.ok result, handleSendingMergedEmail result db')
  | err => err

/-! ## Cross-reference relinker and Word deletion (words.js) -/

/-- The per-example transformation of
`replaceWordIdsFromExampleAssociatedWords` (lines 264–269): push `newId`,
remove every entry whose string form equals `oldId`'s, dedup by string form. -/
def relinkAssociatedWords (l : List OID) (oldId newId : OID) : List OID :=
  uniqBy (fun a => a.s) ((l ++ [newId]).filter (fun a => !(a.s == oldId.s)))

/-- `replaceWordIdsFromExampleAssociatedWords` (words.js lines 262–272):
relink and persist each given Example. -/
def replaceWordIdsFromExampleAssociatedWords : List Example → OID → OID → M Unit
  | [], _, _ => pure ()
  | ex :: rest, oldId, newId => do
    let _ ← saveExample { ex with associatedWords := relinkAssociatedWords ex.associatedWords oldId newId }
    replaceWordIdsFromExampleAssociatedWords rest oldId newId

/-- `findAndUpdateWord` (words.js lines 228–240).  `isValid(undefined)` is
false and the thrown message is chosen by `!id`, hence the two messages. -/
def findAndUpdateWord (id? : Option OID) (cb : Word → M Word) : M Word :=
  match id? with
  | none => throwM "No word id provided"
  | some id =>
    if !(isValidObjectId id) then throwM "Invalid word id provided"
    else do
      let w? ← findWordById id
      match w? with
      | none => throwM "Word doesn't exist"
      | some word => cb word

/-- `deleteWord` (words.js lines 277–312).  Destructuring a `null` fetch
result throws in JS; modelled by the explicit not-found error. -/
def deleteWord (toBeDeletedWordId : OID) (primaryWordId? : Option OID) : M Word := do
  let deleted? ← findWordById toBeDeletedWordId
  match deleted? with
  | none => throwM "Cannot destructure property of null"
  | some deletedWord => do
    let toBeDeletedWordExamples ← findExampleByAssociatedWordId toBeDeletedWordId
    findAndUpdateWord primaryWordId? (fun combineWord => do
      let updatedWord : Word := { combineWord with
        definitions := uniqBy (fun d => d) (combineWord.definitions ++ deletedWord.definitions),
        variations := uniqBy (fun v => v) (combineWord.variations ++ deletedWord.variations ++ [deletedWord.word]),
        stems := uniqBy (fun st => st) (combineWord.stems ++ deletedWord.stems) }
      wordDeleteOne toBeDeletedWordId
      deleteWordSuggestionsByOriginalWordId toBeDeletedWordId
      match primaryWordId? with
      | some primaryWordId =>
        replaceWordIdsFromExampleAssociatedWords toBeDeletedWordExamples toBeDeletedWordId primaryWordId
      | none => pure ()
      saveWord updatedWord)

/-- Store components untouched by the nested-example cascade: canonical words
and word suggestions. -/
def projWS (db : DB) : List Word × List WordSuggestion :=
  (db.words, db.wordSuggestions)

/-- Store components untouched by the Example Merge Engine: canonical words,
word suggestions, and example suggestions. -/
def projWSE (db : DB) : List Word × List WordSuggestion × List ExampleSuggestion :=
  (db.words, db.wordSuggestions, db.exampleSuggestions)

/-! ## Concrete stores used by the witness theorems -/

/-- A canonical Word on file, id string "b1". -/
def wB1 : Word :=
  { id := ⟨"b1", 0, true⟩, word := "bia", wordClass := "V", definitions := ["come"],
    variations := [], stems := [], examples := [], authorId := none }

/-- An Example Suggestion listing the same associated-word id twice. -/
def esDup : ExampleSuggestion :=
  { id := ⟨"s1", 0, true⟩, igbo := "i", english := "", associatedWords := [⟨"b1", 0, true⟩, ⟨"b1", 0, true⟩],
    originalExampleId := none, merged := none, mergedBy := none }

/-- Store with one Word and the duplicate-listing suggestion; no storage
failures. -/
def dbDup : DB :=
  { words := [wB1], examples := [], exampleSuggestions := [esDup], wordSuggestions := [],
    ctr := 0, tick := 0, failAt := fun _ => none, findUserEmail := fun _ => none,
    deliverOk := true, sentEmails := [] }

/-- An Example Suggestion listing two distinct identifier objects with equal
string form "b1". -/
def esStrDup : ExampleSuggestion :=
  { id := ⟨"s2", 0, true⟩, igbo := "i", english := "",
    associatedWords := [⟨"b1", 0, true⟩, ⟨"b1", 1, true⟩],
    originalExampleId := none, merged := none, mergedBy := none }

/-- Store for the string-form-duplicate scenario. -/
def dbStrDup : DB :=
  { words := [wB1], examples := [], exampleSuggestions := [esStrDup], wordSuggestions := [],
    ctr := 0, tick := 0, failAt := fun _ => none, findUserEmail := fun _ => none,
    deliverOk := true, sentEmails := [] }

/-- Store whose first persistence operation fails with an underlying storage
error. -/
def dbFail : DB :=
  { words := [wB1], examples := [], exampleSuggestions := [esDup], wordSuggestions := [],
    ctr := 0, tick := 0, failAt := fun t => if t == 0 then some "disk full" else none,
    findUserEmail := fun _ => none, deliverOk := true, sentEmails := [] }

/-- A Word Suggestion proposing a new word (no `originalWordId`). -/
def sugW : WordSuggestion :=
  { id := ⟨"s0", 0, true⟩, word := "nri", wordClass := "N", definitions := ["food"],
    variations := [], stems := [], examples := [], originalWordId := none,
    authorId := none, merged := none, mergedBy := none }

/-- A nested Example Suggestion pointing back at `sugW`'s own id; valid. -/
def esOkN : ExampleSuggestion :=
  { id := ⟨"s3", 0, true⟩, igbo := "i", english := "", associatedWords := [⟨"s0", 0, true⟩],
    originalExampleId := none, merged := none, mergedBy := none }

/-- A nested Example Suggestion pointing back at `sugW`'s own id with both
texts empty (fails merge validation). -/
def esBadN : ExampleSuggestion :=
  { id := ⟨"s4", 0, true⟩, igbo := "", english := "", associatedWords := [⟨"s0", 0, true⟩],
    originalExampleId := none, merged := none, mergedBy := none }

/-- Store for the mid-cascade-failure scenario: the cascade merges `esOkN`
and then fails on `esBadN`. -/
def dbCF : DB :=
  { words := [wB1], examples := [], exampleSuggestions := [esOkN, esBadN],
    wordSuggestions := [sugW], ctr := 0, tick := 0, failAt := fun _ => none,
    findUserEmail := fun _ => none, deliverOk := true, sentEmails := [] }

/-- Word to be deleted in the consolidation scenario, id string "d1". -/
def wDel : Word :=
  { id := ⟨"d1", 0, true⟩, word := "ola", wordClass := "N", definitions := ["gold"],
    variations := [], stems := [], examples := [], authorId := none }

/-- Primary word surviving the consolidation, id string "p1". -/
def wPri : Word :=
  { id := ⟨"p1", 0, true⟩, word := "ego", wordClass := "N", definitions := ["money"],
    variations := [], stems := [], examples := [], authorId := none }

/-- An Example referencing the to-be-deleted word. -/
def exR : Example :=
  { id := ⟨"e1", 0, true⟩, igbo := "i", english := "g", associatedWords := [⟨"d1", 0, true⟩] }

/-- Store for the deletion/consolidation scenario. -/
def dbDel : DB :=
  { words := [wDel, wPri], examples := [exR], exampleSuggestions := [], wordSuggestions := [],
    ctr := 0, tick := 0, failAt := fun _ => none, findUserEmail := fun _ => none,
    deliverOk := true, sentEmails := [] }

/-- The expected consolidated primary Word of the `dbDel` scenario. -/
def wExp : Word :=
  { id := ⟨"p1", 0, true⟩, word := "ego", wordClass := "N", definitions := ["money", "gold"],
    variations := ["ola"], stems := [], examples := [], authorId := none }

/-- The canonical Word `mergeWordCore sugW` creates on `dbDup` (client id
`genId 0`). -/
def wNew0 : Word :=
  { id := genId 0, word := "nri", wordClass := "N", definitions := ["food"],
    variations := [], stems := [], examples := [], authorId := none }

/-- An associated-word list correctly relinked from the suggestion id `sid`
to the canonical word id `wid`: it references `wid` and no longer references
`sid` (string-form comparison, the relinker's notion of identity). -/
def GoodAssoc (sid wid : OID) (l : List OID) : Prop :=
  (∃ a ∈ l, a.s = wid.s) ∧ ∀ a ∈ l, a.s ≠ sid.s

/-- Store for the successful-cascade scenario: one valid nested Example
Suggestion pointing back at `sugW`. -/
def dbC1 : DB :=
  { words := [wB1], examples := [], exampleSuggestions := [esOkN],
    wordSuggestions := [sugW], ctr := 0, tick := 0, failAt := fun _ => none,
    findUserEmail := fun _ => none, deliverOk := true, sentEmails := [] }

/-! ## Basic lemmas: the monad, lodash combinators, upsert -/

theorem run_bind {α β : Type} (x : M α) (f : α → M β) (db : DB) :
    (x >>= f) db = match x db with
      | (.ok a, db') => f a db'
      | (.error e, db') => (.error e, db') := rfl

theorem run_pure {α : Type} (a : α) (db : DB) : (pure a : M α) db = (.ok a, db) := rfl

theorem run_throwM {α : Type} (msg : String) (db : DB) :
    (throwM msg : M α) db = (.error msg, db) := rfl

theorem mem_uniqByAux {α β : Type} [DecidableEq β] (f : α → β) :
    ∀ (l : List α) (s : List β) (a : α), a ∈ uniqByAux f l s → a ∈ l ∧ f a ∉ s := by
  intro l
  induction l with
  | nil => intro s a h; simp [uniqByAux] at h
  | cons x xs ih =>
    intro s a h
    by_cases hx : f x ∈ s
    · simp only [uniqByAux, if_pos hx] at h
      rcases ih s a h with ⟨h1, h2⟩
      exact ⟨List.mem_cons_of_mem _ h1, h2⟩
    · simp only [uniqByAux, if_neg hx, List.mem_cons] at h
      rcases h with rfl | h
      · exact ⟨List.mem_cons_self _ _, hx⟩
      · rcases ih _ a h with ⟨h1, h2⟩
        refine ⟨List.mem_cons_of_mem _ h1, fun hs => h2 ?_⟩
        exact List.mem_cons_of_mem _ hs

theorem uniqByAux_sublist {α β : Type} [DecidableEq β] (f : α → β) :
    ∀ (l : List α) (s : List β), (uniqByAux f l s).Sublist l := by
  intro l
  induction l with
  | nil => intro s; simp [uniqByAux]
  | cons x xs ih =>
    intro s
    by_cases hx : f x ∈ s
    · simp only [uniqByAux, if_pos hx]
      exact (ih s).cons x
    · simp only [uniqByAux, if_neg hx]
      exact (ih (f x :: s)).cons₂ x

theorem uniqByAux_idem {α β : Type} [DecidableEq β] (f : α → β) :
    ∀ (l : List α) (s : List β), uniqByAux f (uniqByAux f l s) s = uniqByAux f l s := by
  intro l
  induction l with
  | nil => intro s; rfl
  | cons x xs ih =>
    intro s
    by_cases hx : f x ∈ s
    · simp only [uniqByAux, if_pos hx]
      exact ih s
    · simp only [uniqByAux, if_neg hx]
      rw [ih (f x :: s)]

theorem exists_mem_uniqByAux {α β : Type} [DecidableEq β] (f : α → β) :
    ∀ (l : List α) (s : List β) (a : α), a ∈ l → f a ∉ s →
      ∃ b, b ∈ uniqByAux f l s ∧ f b = f a := by
  intro l
  induction l with
  | nil => intro s a ha _; simp at ha
  | cons x xs ih =>
    intro s a ha hs
    rcases List.mem_cons.mp ha with rfl | ha'
    · by_cases hx : f a ∈ s
      · exact absurd hx hs
      · exact ⟨a, by simp [uniqByAux, if_neg hx], rfl⟩
    · by_cases hx : f x ∈ s
      · rcases ih s a ha' hs with ⟨b, hb, hfb⟩
        exact ⟨b, by simp [uniqByAux, if_pos hx, hb], hfb⟩
      · by_cases hfa : f a = f x
        · exact ⟨x, by simp [uniqByAux, if_neg hx], hfa.symm⟩
        · have hs' : f a ∉ f x :: s := by
            simp only [List.mem_cons]
            rintro (h | h)
            · exact hfa h
            · exact hs h
          rcases ih (f x :: s) a ha' hs' with ⟨b, hb, hfb⟩
          exact ⟨b, by simp [uniqByAux, if_neg hx, hb], hfb⟩

theorem uniqByAux_append_absorb {α β : Type} [DecidableEq β] (f : α → β) (x : α) :
    ∀ (l : List α) (s : List β), ((∃ b, b ∈ l ∧ f b = f x) ∨ f x ∈ s) →
      uniqByAux f (l ++ [x]) s = uniqByAux f l s := by
  intro l
  induction l with
  | nil =>
    intro s h
    rcases h with ⟨b, hb, _⟩ | h
    · simp at hb
    · simp [uniqByAux, if_pos h]
  | cons y ys ih =>
    intro s h
    by_cases hy : f y ∈ s
    · simp only [List.cons_append, uniqByAux, if_pos hy]
      apply ih
      rcases h with ⟨b, hb, hfb⟩ | h
      · rcases List.mem_cons.mp hb with rfl | hb'
        · exact Or.inr (hfb ▸ hy)
        · exact Or.inl ⟨b, hb', hfb⟩
      · exact Or.inr h
    · simp only [List.cons_append, uniqByAux, if_neg hy]
      congr 1
      apply ih
      rcases h with ⟨b, hb, hfb⟩ | h
      · rcases List.mem_cons.mp hb with rfl | hb'
        · exact Or.inr (by simp [hfb])
        · exact Or.inl ⟨b, hb', hfb⟩
      · exact Or.inr (List.mem_cons_of_mem _ h)

theorem uniqByAux_congr_seen {α β : Type} [DecidableEq β] (f : α → β) :
    ∀ (l : List α) (s s' : List β), (∀ b, b ∈ s ↔ b ∈ s') →
      uniqByAux f l s = uniqByAux f l s' := by
  intro l
  induction l with
  | nil => intro s s' _; rfl
  | cons x xs ih =>
    intro s s' hss
    by_cases hx : f x ∈ s
    · rw [uniqByAux, if_pos hx, uniqByAux, if_pos ((hss _).mp hx)]
      exact ih s s' hss
    · rw [uniqByAux, if_neg hx, uniqByAux, if_neg (fun h => hx ((hss _).mpr h))]
      congr 1
      apply ih
      intro b
      simp only [List.mem_cons]
      exact or_congr Iff.rfl (hss b)

theorem uniqByAux_seen_cons {α β : Type} [DecidableEq β] (f : α → β) :
    ∀ (l : List α) (s : List β) (b : β),
      uniqByAux f l (b :: s) = (uniqByAux f l s).filter (fun y => decide (f y ≠ b)) := by
  intro l
  induction l with
  | nil => intro s b; rfl
  | cons x xs ih =>
    intro s b
    by_cases hxb : f x = b
    · subst hxb
      rw [uniqByAux, if_pos (List.mem_cons_self _ _)]
      by_cases hx : f x ∈ s
      · rw [uniqByAux, if_pos hx, ih]
      · rw [uniqByAux, if_neg hx, List.filter_cons, if_neg (by simp)]
        rw [ih s (f x), List.filter_filter]
        apply List.filter_congr
        intro a _
        simp
    · by_cases hx : f x ∈ s
      · rw [uniqByAux, if_pos (List.mem_cons_of_mem _ hx), uniqByAux, if_pos hx, ih]
      · have hnx : f x ∉ b :: s := by
          simp only [List.mem_cons]
          rintro (h | h)
          · exact hxb h
          · exact hx h
        rw [uniqByAux, if_neg hnx, uniqByAux, if_neg hx, List.filter_cons,
            if_pos (by simp [hxb])]
        congr 1
        rw [uniqByAux_congr_seen f xs (f x :: b :: s) (b :: f x :: s) (by intro c; simp; tauto),
            ih (f x :: s) b]

theorem uniqBy_cons {α β : Type} [DecidableEq β] (f : α → β) (x : α) (xs : List α) :
    uniqBy f (x :: xs) = x :: (uniqBy f xs).filter (fun y => decide (f y ≠ f x)) := by
  rw [uniqBy, uniqByAux, if_neg (List.not_mem_nil _), uniqByAux_seen_cons]
  rfl

theorem uniqBy_eq_keepFirstBy {α β : Type} [DecidableEq β] (f : α → β) (l : List α) :
    uniqBy f l = keepFirstBy f l := by
  induction l with
  | nil => rfl
  | cons x xs ih => rw [uniqBy_cons, ih]; rfl

theorem uniq_eq_self_iff_nodup {α : Type} [DecidableEq α] (l : List α) :
    uniq l = l ↔ l.Nodup := by
  induction l with
  | nil => simp [uniq, uniqBy, uniqByAux]
  | cons x xs ih =>
    constructor
    · intro h
      rw [uniq, uniqBy_cons] at h
      have h2 : (uniqBy (fun a => a) xs).filter (fun y => decide (y ≠ x)) = xs :=
        (List.cons.inj h).2
      have hsub : (uniqBy (fun a => a) xs).Sublist xs := uniqByAux_sublist _ xs []
      have hUfull : uniqBy (fun a => a) xs = xs := by
        apply hsub.eq_of_length
        apply Nat.le_antisymm hsub.length_le
        calc xs.length
            = ((uniqBy (fun a => a) xs).filter (fun y => decide (y ≠ x))).length := by rw [h2]
          _ ≤ (uniqBy (fun a => a) xs).length := (List.filter_sublist _).length_le
      rw [hUfull] at h2
      have hx : x ∉ xs := by
        intro hmem
        have h3 := List.filter_eq_self.mp h2 x hmem
        simp at h3
      exact List.nodup_cons.mpr ⟨hx, ih.mp hUfull⟩
    · intro h
      rcases List.nodup_cons.mp h with ⟨hx, hxs⟩
      have hU : uniqBy (fun a => a) xs = xs := ih.mpr hxs
      rw [uniq, uniqBy_cons, hU]
      have hfilter : xs.filter (fun y => decide (y ≠ x)) = xs := by
        apply List.filter_eq_self.mpr
        intro a ha
        simp only [ne_eq, decide_eq_true_eq]
        intro hax
        exact hx (hax ▸ ha)
      rw [hfilter]

theorem uniq_length_eq_iff_nodup {α : Type} [DecidableEq α] (l : List α) :
    (uniq l).length = l.length ↔ l.Nodup := by
  constructor
  · intro h
    have hsub : (uniq l).Sublist l := uniqByAux_sublist _ l []
    exact (uniq_eq_self_iff_nodup l).mp (hsub.eq_of_length h)
  · intro h
    rw [(uniq_eq_self_iff_nodup l).mpr h]

theorem mem_upsertBy {α : Type} (key : α → String) (x y : α) (l : List α) :
    y ∈ upsertBy key x l → y = x ∨ (y ∈ l ∧ key y ≠ key x) := by
  intro h
  rw [upsertBy] at h
  by_cases hany : l.any (fun z => key z == key x)
  · rw [if_pos hany] at h
    rcases List.mem_map.mp h with ⟨z, hz, hzy⟩
    by_cases hk : key z == key x
    · rw [if_pos hk] at hzy
      exact Or.inl hzy.symm
    · rw [if_neg hk] at hzy
      subst hzy
      exact Or.inr ⟨hz, by simpa using hk⟩
  · rw [if_neg hany] at h
    rcases List.mem_append.mp h with h' | h'
    · by_cases hk : key y = key x
      · exfalso
        exact hany (List.any_eq_true.mpr ⟨y, h', by simpa using hk⟩)
      · exact Or.inr ⟨h', hk⟩
    · simp only [List.mem_singleton] at h'
      exact Or.inl h'

theorem self_mem_upsertBy {α : Type} (key : α → String) (x : α) (l : List α) :
    x ∈ upsertBy key x l := by
  rw [upsertBy]
  by_cases hany : l.any (fun z => key z == key x)
  · rw [if_pos hany]
    rcases List.any_eq_true.mp hany with ⟨z, hz, hk⟩
    exact List.mem_map.mpr ⟨z, hz, by rw [if_pos hk]⟩
  · rw [if_neg hany]
    exact List.mem_append.mpr (Or.inr (List.mem_singleton.mpr rfl))

theorem mem_upsertBy_of_mem {α : Type} (key : α → String) (x y : α) (l : List α)
    (hy : y ∈ l) (hk : key y ≠ key x) : y ∈ upsertBy key x l := by
  rw [upsertBy]
  by_cases hany : l.any (fun z => key z == key x)
  · rw [if_pos hany]
    exact List.mem_map.mpr ⟨y, hy, by rw [if_neg (by simpa using hk)]⟩
  · rw [if_neg hany]
    exact List.mem_append.mpr (Or.inl hy)

theorem find?_map_upsert {α : Type} (key : α → String) (x : α) :
    ∀ l : List α, (l.any fun z => key z == key x) = true →
      (l.map (fun y => if (key y == key x) = true then x else y)).find?
        (fun y => key y == key x) = some x := by
  intro l
  induction l with
  | nil => intro h; simp at h
  | cons z zs ih =>
    intro hany
    by_cases hk : (key z == key x) = true
    · rw [List.map_cons, if_pos hk, List.find?_cons_of_pos _ (by simp)]
    · rw [List.map_cons, if_neg hk, List.find?_cons_of_neg _ (by simpa using hk)]
      apply ih
      rcases List.any_eq_true.mp hany with ⟨w, hw, hkw⟩
      rcases List.mem_cons.mp hw with rfl | hw'
      · exact absurd hkw hk
      · exact List.any_eq_true.mpr ⟨w, hw', hkw⟩

theorem find?_all_neg_append {α : Type} (key : α → String) (x : α) :
    ∀ l : List α, (∀ y ∈ l, (key y == key x) = false) →
      (l ++ [x]).find? (fun y => key y == key x) = some x := by
  intro l
  induction l with
  | nil =>
    intro _
    rw [List.nil_append, List.find?_cons_of_pos _ (by simp)]
  | cons z zs ih =>
    intro hall
    rw [List.cons_append,
        List.find?_cons_of_neg _ (by simp [hall z (List.mem_cons_self _ _)])]
    exact ih (fun y hy => hall y (List.mem_cons_of_mem _ hy))

theorem find?_upsertBy {α : Type} (key : α → String) (x : α) (l : List α) :
    (upsertBy key x l).find? (fun y => key y == key x) = some x := by
  rw [upsertBy]
  by_cases hany : (l.any fun z => key z == key x) = true
  · rw [if_pos hany]
    exact find?_map_upsert key x l hany
  · rw [if_neg hany]
    apply find?_all_neg_append
    intro y hy
    by_contra hne
    exact hany (List.any_eq_true.mpr ⟨y, hy, by simpa using hne⟩)

theorem upsertBy_eq_append {α : Type} (key : α → String) (x : α) (l : List α)
    (h : ∀ y ∈ l, key y ≠ key x) : upsertBy key x l = l ++ [x] := by
  rw [upsertBy, if_neg]
  intro hany
  rcases List.any_eq_true.mp hany with ⟨z, hz, hk⟩
  exact h z hz (by simpa using hk)

/-! ## The cross-reference relinker: specification and idempotence -/

theorem mem_relink_not_old (l : List OID) (oldId newId : OID) :
    ∀ a ∈ relinkAssociatedWords l oldId newId, (a.s == oldId.s) = false := by
  intro a ha
  rw [relinkAssociatedWords] at ha
  have h1 := (mem_uniqByAux _ _ _ _ ha).1
  have h2 := (List.mem_filter.mp h1).2
  simpa using h2

theorem mem_relink_new (l : List OID) (oldId newId : OID) (h : newId.s ≠ oldId.s) :
    ∃ b, b ∈ relinkAssociatedWords l oldId newId ∧ b.s = newId.s := by
  have hmem : newId ∈ (l ++ [newId]).filter (fun a => !(a.s == oldId.s)) := by
    apply List.mem_filter.mpr
    exact ⟨List.mem_append.mpr (Or.inr (List.mem_singleton.mpr rfl)), by simpa using h⟩
  rcases exists_mem_uniqByAux (fun a : OID => a.s) _ [] newId hmem (List.not_mem_nil _)
    with ⟨b, hb, hfb⟩
  exact ⟨b, hb, hfb⟩

theorem relink_idempotent (l : List OID) (oldId newId : OID) :
    relinkAssociatedWords (relinkAssociatedWords l oldId newId) oldId newId
      = relinkAssociatedWords l oldId newId := by
  have hfilterR : (relinkAssociatedWords l oldId newId).filter (fun a => !(a.s == oldId.s))
      = relinkAssociatedWords l oldId newId :=
    List.filter_eq_self.mpr (fun a ha => by simpa using mem_relink_not_old l oldId newId a ha)
  by_cases hs : newId.s = oldId.s
  · rw [relinkAssociatedWords, List.filter_append, hfilterR]
    have hcond : (!(newId.s == oldId.s)) = false := by simp [hs]
    have : ([newId].filter (fun a => !(a.s == oldId.s))) = [] := by
      rw [List.filter_cons, if_neg (by rw [hcond]; exact Bool.false_ne_true), List.filter_nil]
    rw [this, List.append_nil, relinkAssociatedWords]
    exact uniqByAux_idem _ _ []
  · rw [relinkAssociatedWords, List.filter_append, hfilterR]
    have hcond : (!(newId.s == oldId.s)) = true := by simpa using hs
    have : ([newId].filter (fun a => !(a.s == oldId.s))) = [newId] := by
      rw [List.filter_cons, if_pos hcond, List.filter_nil]
    rw [this]
    rcases mem_relink_new l oldId newId hs with ⟨b, hb, hfb⟩
    rw [show relinkAssociatedWords l oldId newId ++ [newId]
          = relinkAssociatedWords l oldId newId ++ [newId] from rfl]
    calc uniqBy (fun a : OID => a.s) (relinkAssociatedWords l oldId newId ++ [newId])
        = uniqBy (fun a : OID => a.s) (relinkAssociatedWords l oldId newId) :=
          uniqByAux_append_absorb _ newId _ [] (Or.inl ⟨b, hb, hfb⟩)
      _ = relinkAssociatedWords l oldId newId := by
          rw [relinkAssociatedWords]
          exact uniqByAux_idem _ _ []

/-- C4: every call of `replaceWordIdsFromExampleAssociatedWords` rewrites each
example's associated-word list to the result of appending `newId`, removing
every entry whose string form equals `oldId`'s string form, and deduplicating
by string form (first occurrence kept); and the transformation is idempotent:
applying it a second time with the same `(oldId, newId)` leaves the list
exactly as after applying it once. -/
theorem relink_spec_and_idempotent (l : List OID) (oldId newId : OID) :
    relinkAssociatedWords l oldId newId
      = keepFirstBy (fun a => a.s) ((l ++ [newId]).filter (fun a => !(a.s == oldId.s)))
    ∧ relinkAssociatedWords (relinkAssociatedWords l oldId newId) oldId newId
      = relinkAssociatedWords l oldId newId := by
  constructor
  · rw [relinkAssociatedWords, uniqBy_eq_keepFirstBy]
  · exact relink_idempotent l oldId newId

/-- C9: when `oldId` and `newId` have the same string form (relinking a word
to itself), the relinker removes every reference to that word — including the
`newId` it itself just appended, since the push happens before the filter —
leaving zero references rather than exactly one. -/
theorem relink_self_removes_all (l : List OID) (oldId newId : OID) (h : oldId.s = newId.s) :
    (relinkAssociatedWords l oldId newId).countP (fun a => a.s == oldId.s) = 0
    ∧ newId ∉ relinkAssociatedWords l oldId newId := by
  constructor
  · apply List.countP_eq_zero.mpr
    intro a ha
    simpa using mem_relink_not_old l oldId newId a ha
  · intro hmem
    have := mem_relink_not_old l oldId newId newId hmem
    rw [← h] at this
    simp at this

/-! ## Running the Example Merge Engine -/

theorem checkWords_run : ∀ (l : List OID) (db : DB),
    checkAssociatedWordsExist l db =
      (if ∀ a ∈ l, (db.words.find? (fun w => w.id.s == a.s)).isSome then .ok ()
       else .error "Example suggestion associated words can only contain Word ids before merging",
       db) := by
  intro l
  induction l with
  | nil =>
    intro db
    rw [if_pos (by intro a ha; simp at ha)]
    rfl
  | cons x xs ih =>
    intro db
    simp only [checkAssociatedWordsExist, run_bind, findWordById]
    cases hfind : db.words.find? (fun w => w.id.s == x.s) with
    | none =>
      rw [if_neg]
      · rfl
      · intro hall
        have := hall x (List.mem_cons_self _ _)
        rw [hfind] at this
        simp at this
    | some w =>
      show checkAssociatedWordsExist xs db = _
      rw [ih db]
      by_cases hrest : ∀ a ∈ xs, (db.words.find? (fun w => w.id.s == a.s)).isSome
      · rw [if_pos hrest, if_pos]
        intro a ha
        rcases List.mem_cons.mp ha with rfl | ha'
        · rw [hfind]; rfl
        · exact hrest a ha'
      · rw [if_neg hrest, if_neg]
        intro hall
        exact hrest (fun a ha => hall a (List.mem_cons_of_mem _ ha))

theorem executeMergeExample_run_found (db : DB) (sid : OID) (u : String) (es : ExampleSuggestion)
    (hfind : db.exampleSuggestions.find? (fun e => e.id.s == sid.s) = some es) :
    executeMergeExample sid u db =
      if es.igbo = "" ∧ es.english = "" then
        (.error "Required information is missing, double check your provided data", db)
      else if es.associatedWords.any (fun a => !(isValidObjectId a)) then
        (.error "Invalid id found in associatedWords", db)
      else if ∀ a ∈ es.associatedWords, (db.words.find? (fun w => w.id.s == a.s)).isSome then
        if es.associatedWords.length ≠ (uniq es.associatedWords).length then
          (.error "Duplicates are not allows in associated words", db)
        else match es.originalExampleId with
          | some _ => mergeIntoExample es u db
          | none => createExampleFromSuggestion es u db
      else (.error "Example suggestion associated words can only contain Word ids before merging",
            db) := by
  simp only [executeMergeExample, run_bind, findExampleSuggestionById, hfind]
  by_cases h1 : es.igbo = "" ∧ es.english = ""
  · rw [if_pos h1, if_pos h1]
    rfl
  · rw [if_neg h1, if_neg h1]
    by_cases h2 : (es.associatedWords.any fun a => !(isValidObjectId a)) = true
    · rw [if_pos h2, if_pos h2]
      rfl
    · rw [if_neg h2, if_neg h2]
      simp only [run_bind, checkWords_run]
      by_cases h3 : ∀ a ∈ es.associatedWords, (db.words.find? (fun w => w.id.s == a.s)).isSome
      · rw [if_pos h3, if_pos h3]
        by_cases h4 : es.associatedWords.length ≠ (uniq es.associatedWords).length
        · rw [if_pos h4, if_pos h4]
          rfl
        · rw [if_neg h4, if_neg h4]
          cases es.originalExampleId <;> rfl
      · rw [if_neg h3, if_neg h3]

/-- C3: `executeMergeExample` fails with a validation error and performs no
persistence (the resulting store is exactly the input store) whenever the
fetched Example Suggestion has both texts empty, or any associated-word id is
syntactically invalid, or any associated-word id references no existing Word,
or the associated-word list contains the same identifier twice; in the last
case, when the earlier checks pass, the surfaced error is the
duplicate-associated-words message. -/
theorem executeMergeExample_rejects_invalid (db : DB) (sid : OID) (u : String)
    (es : ExampleSuggestion)
    (hfind : db.exampleSuggestions.find? (fun e => e.id.s == sid.s) = some es) :
    ((es.igbo = "" ∧ es.english = "")
        ∨ (∃ a ∈ es.associatedWords, isValidObjectId a = false)
        ∨ (∃ a ∈ es.associatedWords, db.words.find? (fun w => w.id.s == a.s) = none)
        ∨ ¬ es.associatedWords.Nodup →
      ∃ e, executeMergeExample sid u db = (.error e, db))
    ∧ (¬ (es.igbo = "" ∧ es.english = "") →
       (∀ a ∈ es.associatedWords, isValidObjectId a = true) →
       (∀ a ∈ es.associatedWords, (db.words.find? (fun w => w.id.s == a.s)).isSome) →
       ¬ es.associatedWords.Nodup →
      executeMergeExample sid u db = (.error "Duplicates are not allows in associated words", db)) := by
  constructor
  · intro hbad
    rw [executeMergeExample_run_found db sid u es hfind]
    by_cases h1 : es.igbo = "" ∧ es.english = ""
    · rw [if_pos h1]; exact ⟨_, rfl⟩
    · rw [if_neg h1]
      by_cases h2 : (es.associatedWords.any fun a => !(isValidObjectId a)) = true
      · rw [if_pos h2]; exact ⟨_, rfl⟩
      · rw [if_neg h2]
        by_cases h3 : ∀ a ∈ es.associatedWords, (db.words.find? (fun w => w.id.s == a.s)).isSome
        · rw [if_pos h3]
          have h4 : es.associatedWords.length ≠ (uniq es.associatedWords).length := by
            rcases hbad with h | h | h | h
            · exact absurd h h1
            · rcases h with ⟨a, ha, hv⟩
              exact absurd (List.any_eq_true.mpr ⟨a, ha, by simp [hv]⟩) h2
            · rcases h with ⟨a, ha, hn⟩
              have := h3 a ha
              rw [hn] at this
              simp at this
            · intro hlen
              exact h ((uniq_length_eq_iff_nodup es.associatedWords).mp hlen.symm)
          rw [if_pos h4]
          exact ⟨_, rfl⟩
        · rw [if_neg h3]; exact ⟨_, rfl⟩
  · intro h1 h2 h3 hdup
    rw [executeMergeExample_run_found db sid u es hfind, if_neg h1, if_neg, if_pos h3, if_pos]
    · intro hlen
      exact hdup ((uniq_length_eq_iff_nodup es.associatedWords).mp hlen.symm)
    · intro hany
      rcases List.any_eq_true.mp hany with ⟨a, ha, hv⟩
      rw [h2 a ha] at hv
      simp at hv

/-- Witness for C3: on `dbDup` the duplicate-listing suggestion is rejected
with the duplicate-associated-words error and the store is untouched. -/
theorem executeMergeExample_rejects_invalid_witness :
    executeMergeExample ⟨"s1", 0, true⟩ "ed" dbDup
      = (.error "Duplicates are not allows in associated words", dbDup) :=
  (executeMergeExample_rejects_invalid dbDup ⟨"s1", 0, true⟩ "ed" esDup rfl).2
    (by simp [esDup]) (by decide) (by decide) (by decide)

/-- Witness for C9 at a concrete input: two distinct identifier objects with
equal string form "x". -/
theorem relink_self_removes_all_witness :
    (relinkAssociatedWords [⟨"x", 0, true⟩, ⟨"y", 0, true⟩] ⟨"x", 0, true⟩ ⟨"x", 1, true⟩).countP
        (fun a => a.s == ("x" : String)) = 0
    ∧ (⟨"x", 1, true⟩ : OID) ∉ relinkAssociatedWords [⟨"x", 0, true⟩, ⟨"y", 0, true⟩] ⟨"x", 0, true⟩ ⟨"x", 1, true⟩ :=
  relink_self_removes_all [⟨"x", 0, true⟩, ⟨"y", 0, true⟩] ⟨"x", 0, true⟩ ⟨"x", 1, true⟩ rfl

/-- C10: the duplicate detection of `executeMergeExample` compares
associated-word entries by element equality (lodash `uniq`), not by string
form: on a list holding two distinct identifier values with equal string
forms, the check passes (`uniq` keeps both) and the engine raises no
duplicate-associated-words error (here it succeeds and creates the canonical
Example), even though string-form comparison — the relinker's notion of
equality elsewhere — identifies the two entries. -/
theorem executeMergeExample_uniq_by_value_not_string :
    ((⟨"b1", 0, true⟩ : OID) ≠ ⟨"b1", 1, true⟩)
    ∧ (⟨"b1", 0, true⟩ : OID).s = (⟨"b1", 1, true⟩ : OID).s
    ∧ (uniq [(⟨"b1", 0, true⟩ : OID), ⟨"b1", 1, true⟩]).length = 2
    ∧ (executeMergeExample ⟨"s2", 0, true⟩ "ed" dbStrDup).1
        = .ok { id := genId 0, igbo := "i", english := "",
                associatedWords := [⟨"b1", 0, true⟩, ⟨"b1", 1, true⟩] }
    ∧ uniqBy (fun a => a.s) [(⟨"b1", 0, true⟩ : OID), ⟨"b1", 1, true⟩] = [⟨"b1", 0, true⟩] :=
  ⟨by decide, rfl, by decide, rfl, by decide⟩

/-! ## Error masking on the create paths, transparent update paths -/

theorem catchWith_error {α : Type} (msg : String) (x : M α) (db db' : DB) (e : String) :
    catchWith msg x db = (.error e, db') → e = msg := by
  intro h
  rw [catchWith] at h
  rcases hx : x db with ⟨r, db''⟩
  rw [hx] at h
  cases r with
  | error e' =>
    have := (Prod.mk.inj h).1
    exact (Except.error.inj this).symm
  | ok a =>
    have := (Prod.mk.inj h).1
    exact absurd this (by simp)

/-- C6: any failure inside the create branches of the merge engines surfaces
as the fixed generic message, hiding the underlying cause; a storage failure
inside the update branches (`mergeIntoExample`, `mergeIntoWord`) propagates
its own message unmodified to the caller. -/
theorem merge_error_masking (db : DB) (es : ExampleSuggestion) (sug : WordSuggestion)
    (u m : String) :
    (∀ e db', createExampleFromSuggestion es u db = (.error e, db') →
        e = "An error occurred while saving the new example.")
    ∧ (∀ e db', createWordFromSuggestion sug u db = (.error e, db') →
        e = "An error occurred while saving the new word.")
    ∧ (db.failAt db.tick = some m →
        mergeIntoExample es u db = (.error m, { db with tick := db.tick + 1 }))
    ∧ (db.failAt db.tick = some m →
        mergeIntoWord sug u db = (.error m, { db with tick := db.tick + 1 })) := by
  refine ⟨?_, ?_, ?_, ?_⟩
  · intro e db' h
    simp only [createExampleFromSuggestion] at h
    exact catchWith_error _ _ db db' e h
  · intro e db' h
    simp only [createWordFromSuggestion] at h
    exact catchWith_error _ _ db db' e h
  · intro hfail
    simp only [mergeIntoExample, run_bind, exampleFindOneAndUpdate, hfail]
  · intro hfail
    simp only [mergeIntoWord, rethrowWithMessage, run_bind, wordFindOneAndUpdate, hfail]

/-- Witness for C6: on `dbFail` the storage failure "disk full" is masked by
the generic message on the create path and surfaces verbatim on the update
path. -/
theorem merge_error_masking_witness :
    createExampleFromSuggestion esDup "ed" dbFail
      = (.error "An error occurred while saving the new example.",
         { dbFail with ctr := dbFail.ctr + 1, tick := dbFail.tick + 1 })
    ∧ mergeIntoExample esDup "ed" dbFail
      = (.error "disk full", { dbFail with tick := dbFail.tick + 1 }) :=
  ⟨rfl, (merge_error_masking dbFail esDup sugW "ed" "disk full").2.2.1 rfl⟩

/-! ## Best-effort notification -/

/-- C8: the notification step cannot fail the merge.  When the core merge
succeeds with Word `w`, `mergeWord` returns `w` and merely applies the
(error-free, state-level) notification step; with no submitter identity, or a
submitter without a contact address, the store is left untouched (no
notification recorded); a notification delivery failure likewise leaves no
trace and is not propagated to the merge result. -/
theorem mergeWord_notification_best_effort (sug : WordSuggestion) (u : String)
    (db db' : DB) (w : Word) :
    (mergeWordCore sug u db = (.ok w, db') →
        mergeWord sug u db = (.ok w, handleSendingMergedEmail w db'))
    ∧ (w.authorId = none → handleSendingMergedEmail w db' = db')
    ∧ (∀ a, w.authorId = some a → db'.findUserEmail a = none →
        handleSendingMergedEmail w db' = db')
    ∧ (db'.deliverOk = false → handleSendingMergedEmail w db' = db') := by
  refine ⟨?_, ?_, ?_, ?_⟩
  · intro h
    simp only [mergeWord, h]
  · intro h
    simp only [handleSendingMergedEmail, h]
  · intro a ha hlookup
    simp only [handleSendingMergedEmail, ha, hlookup]
  · intro hdel
    simp only [handleSendingMergedEmail]
    split
    · rfl
    · split
      · rfl
      · rw [if_neg (by rw [hdel]; exact Bool.false_ne_true)]

/-- Witness for C8: a result Word with no submitter identity leaves the store
untouched. -/
theorem mergeWord_notification_best_effort_witness :
    handleSendingMergedEmail wB1 dbDup = dbDup :=
  (mergeWord_notification_best_effort sugW "ed" dbDup dbDup wB1).2.1 rfl

/-! ## Frame lemmas: which stores each operation can touch -/

theorem bind_preserves {α β γ : Type} (x : M α) (f : α → M β) (g : DB → γ)
    (hx : ∀ db, g ((x db).2) = g db) (hf : ∀ a db, g ((f a db).2) = g db) (db : DB) :
    g (((x >>= f) db).2) = g db := by
  rw [run_bind]
  rcases hxdb : x db with ⟨r, db'⟩
  have hdb' : g db' = g db := by
    have h := hx db
    rw [hxdb] at h
    exact h
  cases r with
  | ok a =>
    dsimp only
    rw [hf a db', hdb']
  | error e =>
    dsimp only
    exact hdb'

theorem catchWith_state {α : Type} (msg : String) (x : M α) (db : DB) :
    (catchWith msg x db).2 = (x db).2 := by
  rw [catchWith]
  rcases x db with ⟨r, db'⟩
  cases r <;> rfl

theorem checkWords_state (l : List OID) (db : DB) :
    (checkAssociatedWordsExist l db).2 = db := by
  rw [checkWords_run]

theorem mergeIntoExample_frame (es : ExampleSuggestion) (u : String) (db : DB) :
    projWSE ((mergeIntoExample es u db).2) = projWSE db := by
  simp only [mergeIntoExample]
  apply bind_preserves
  · intro db0
    rw [exampleFindOneAndUpdate]
    cases db0.failAt db0.tick with
    | some m => rfl
    | none =>
      cases es.originalExampleId with
      | none => rfl
      | some oid =>
        dsimp only
        cases db0.examples.find? (fun e => e.id.s == oid.s) with
        | none => rfl
        | some old => rfl
  · intro old? db0
    cases old? with
    | none => rfl
    | some ex => rfl

theorem createExampleFromSuggestion_frame (es : ExampleSuggestion) (u : String) (db : DB) :
    projWSE ((createExampleFromSuggestion es u db).2) = projWSE db := by
  simp only [createExampleFromSuggestion]
  rw [catchWith_state]
  apply bind_preserves
  · intro db0
    rw [createExample]
    cases db0.failAt (db0.tick) with
    | some m => rfl
    | none => rfl
  · intro ex db0
    rfl

theorem executeMergeExample_frame (sid : OID) (u : String) (db : DB) :
    projWSE ((executeMergeExample sid u db).2) = projWSE db := by
  simp only [executeMergeExample]
  apply bind_preserves
  · intro db0; rfl
  · intro es? db0
    cases es? with
    | none => rfl
    | some es =>
      dsimp only
      by_cases h1 : es.igbo = "" ∧ es.english = ""
      · rw [if_pos h1]; rfl
      · rw [if_neg h1]
        by_cases h2 : (es.associatedWords.any fun a => !(isValidObjectId a)) = true
        · rw [if_pos h2]; rfl
        · rw [if_neg h2]
          apply bind_preserves
          · intro db1
            rw [checkWords_state]
          · intro _ db1
            by_cases h4 : es.associatedWords.length ≠ (uniq es.associatedWords).length
            · rw [if_pos h4]; rfl
            · rw [if_neg h4]
              cases es.originalExampleId with
              | some _ => exact mergeIntoExample_frame es u db1
              | none => exact createExampleFromSuggestion_frame es u db1

theorem projWS_of_projWSE {db db' : DB} (h : projWSE db' = projWSE db) :
    projWS db' = projWS db := by
  have h1 : db'.words = db.words := congrArg Prod.fst h
  have h2 : db'.wordSuggestions = db.wordSuggestions := congrArg (fun t => t.2.1) h
  simp only [projWS, h1, h2]

theorem mergeNested_frame (sid wid : OID) (u : String) (es : ExampleSuggestion) (db : DB) :
    projWS ((mergeNestedExampleSuggestion sid wid u es db).2) = projWS db := by
  simp only [mergeNestedExampleSuggestion]
  apply bind_preserves
  · intro db0
    rw [saveExampleSuggestion]
    cases db0.failAt db0.tick <;> rfl
  · intro e db0
    exact projWS_of_projWSE (executeMergeExample_frame e.id u db0)

theorem cascade_frame (sid wid : OID) (u : String) :
    ∀ (L : List ExampleSuggestion) (db : DB),
      projWS ((cascadeNestedExampleSuggestions sid wid u L db).2) = projWS db := by
  intro L
  induction L with
  | nil => intro db; rfl
  | cons e rest ih =>
    intro db
    simp only [cascadeNestedExampleSuggestions]
    apply bind_preserves
    · intro db0; exact mergeNested_frame sid wid u e db0
    · intro _ db0; exact ih db0

theorem usam_run (sug : WordSuggestion) (wdoc : Word) (u : String) (db : DB) :
    updateSuggestionAfterMerge sug wdoc u db =
      match cascadeNestedExampleSuggestions sug.id wdoc.id u
          (db.exampleSuggestions.filter (fun e => e.associatedWords.any (fun a => a.s == sug.id.s))) db with
      | (.ok _, db1) => saveWordSuggestion (updateDocumentMerge sug wdoc.id u) db1
      | (.error e, db1) => (.error e, db1) := by
  simp only [updateSuggestionAfterMerge, run_bind, findExampleSuggestionsByAssociatedWord]
  cases hc : cascadeNestedExampleSuggestions sug.id wdoc.id u
      (db.exampleSuggestions.filter (fun e => e.associatedWords.any (fun a => a.s == sug.id.s))) db with
  | mk r1 db1 =>
    cases r1 <;> rfl

/-- C7: the merge stamp of the outer Word Suggestion is persisted only by the
final save, after the whole nested cascade: if the cascade (or that save)
fails, the word-suggestion store is exactly as before — the outer suggestion
is not stamped as merged — while whatever the already-processed nested merges
persisted remains in place (the error carries the partially-mutated store);
on success the stamped suggestion is persisted. -/
theorem updateSuggestionAfterMerge_stamp_last (sug : WordSuggestion) (wdoc : Word)
    (u : String) (db : DB) :
    (∀ e db', updateSuggestionAfterMerge sug wdoc u db = (.error e, db') →
        db'.wordSuggestions = db.wordSuggestions)
    ∧ (∀ s' db', updateSuggestionAfterMerge sug wdoc u db = (.ok s', db') →
        s' = updateDocumentMerge sug wdoc.id u ∧ s' ∈ db'.wordSuggestions) := by
  have hcascade : ((cascadeNestedExampleSuggestions sug.id wdoc.id u
      (db.exampleSuggestions.filter (fun e => e.associatedWords.any (fun a => a.s == sug.id.s))) db).2).wordSuggestions
      = db.wordSuggestions :=
    congrArg (fun t => t.2) (cascade_frame sug.id wdoc.id u
      (db.exampleSuggestions.filter (fun e => e.associatedWords.any (fun a => a.s == sug.id.s))) db)
  constructor
  · intro e db' h
    rw [usam_run] at h
    revert h hcascade
    cases hc : cascadeNestedExampleSuggestions sug.id wdoc.id u
        (db.exampleSuggestions.filter (fun e => e.associatedWords.any (fun a => a.s == sug.id.s))) db with
    | mk r1 db1 =>
      intro hframe hrun
      cases r1 with
      | error e1 =>
        dsimp only at hrun
        injection hrun with h1 h2
        subst h2
        exact hframe
      | ok a =>
        dsimp only at hrun
        simp only [saveWordSuggestion] at hrun
        revert hrun
        cases hfa : db1.failAt db1.tick with
        | some m =>
          intro hrun
          injection hrun with h1 h2
          subst h2
          exact hframe
        | none =>
          intro hrun
          injection hrun with h1 h2
          simp at h1
  · intro s' db' h
    rw [usam_run] at h
    revert h hcascade
    cases hc : cascadeNestedExampleSuggestions sug.id wdoc.id u
        (db.exampleSuggestions.filter (fun e => e.associatedWords.any (fun a => a.s == sug.id.s))) db with
    | mk r1 db1 =>
      intro hframe hrun
      cases r1 with
      | error e1 =>
        dsimp only at hrun
        injection hrun with h1 h2
        simp at h1
      | ok a =>
        dsimp only at hrun
        simp only [saveWordSuggestion] at hrun
        revert hrun
        cases hfa : db1.failAt db1.tick with
        | some m =>
          intro hrun
          injection hrun with h1 h2
          simp at h1
        | none =>
          intro hrun
          injection hrun with h1 h2
          subst h2
          constructor
          · exact (Except.ok.inj h1).symm
          · rw [← Except.ok.inj h1]
            exact self_mem_upsertBy _ _ _

/-- Witness for C7: in `dbCF` the cascade merges the first nested suggestion
(its canonical Example exists afterwards), then fails on the second; the
outer suggestion's stamp is not persisted. -/
theorem updateSuggestionAfterMerge_stamp_last_witness :
    (updateSuggestionAfterMerge sugW wB1 "ed" dbCF).2.wordSuggestions = dbCF.wordSuggestions
    ∧ ({ id := genId 0, igbo := "i", english := "", associatedWords := [⟨"b1", 0, true⟩] } : Example)
        ∈ (updateSuggestionAfterMerge sugW wB1 "ed" dbCF).2.examples
    ∧ (updateSuggestionAfterMerge sugW wB1 "ed" dbCF).1
        = .error "Required information is missing, double check your provided data" := by
  refine ⟨?_, ?_, ?_⟩
  · exact (updateSuggestionAfterMerge_stamp_last sugW wB1 "ed" dbCF).1
      "Required information is missing, double check your provided data"
      (updateSuggestionAfterMerge sugW wB1 "ed" dbCF).2 rfl
  · decide
  · rfl

/-! ## Inversion lemmas for successful runs -/

theorem bind_ok_split {α β : Type} (x : M α) (f : α → M β) (db db' : DB) (b : β)
    (h : (x >>= f) db = (.ok b, db')) :
    ∃ a db1, x db = (.ok a, db1) ∧ f a db1 = (.ok b, db') := by
  rw [run_bind] at h
  rcases hx : x db with ⟨r, db1⟩
  rw [hx] at h
  cases r with
  | ok a => exact ⟨a, db1, rfl, h⟩
  | error e =>
    dsimp only at h
    injection h with h1 _
    simp at h1

theorem write_ok_inv (f : DB → DB) (db db' : DB) (u : Unit) (h : write f db = (.ok u, db')) :
    db' = f { db with tick := db.tick + 1 } := by
  rw [write] at h
  cases hf : db.failAt db.tick with
  | some m => rw [hf] at h; simp at h
  | none =>
    rw [hf] at h
    injection h with h1 h2
    exact h2.symm

theorem saveWord_ok_inv (w : Word) (db db' : DB) (w' : Word)
    (h : saveWord w db = (.ok w', db')) :
    w' = w ∧ db' = { db with tick := db.tick + 1, words := upsertBy (fun x => x.id.s) w db.words } := by
  rw [saveWord] at h
  cases hf : db.failAt db.tick with
  | some m => rw [hf] at h; simp at h
  | none =>
    rw [hf] at h
    injection h with h1 h2
    exact ⟨(Except.ok.inj h1).symm, h2.symm⟩

/-! ## The relinker's effect on the example store -/

theorem replaceWordIds_mem (o n : OID) :
    ∀ (exs : List Example) (db db' : DB),
      replaceWordIdsFromExampleAssociatedWords exs o n db = (.ok (), db') →
      ∀ x ∈ db'.examples,
        (∃ e, e ∈ exs ∧ x = { e with associatedWords := relinkAssociatedWords e.associatedWords o n })
        ∨ (x ∈ db.examples ∧ ∀ e ∈ exs, x.id.s ≠ e.id.s) := by
  intro exs
  induction exs with
  | nil =>
    intro db db' h x hx
    injection h with h1 h2
    subst h2
    exact Or.inr ⟨hx, by intro e he; simp at he⟩
  | cons ex rest ih =>
    intro db db' h x hx
    simp only [replaceWordIdsFromExampleAssociatedWords, run_bind, saveExample] at h
    cases hf : db.failAt db.tick with
    | some m => rw [hf] at h; simp at h
    | none =>
      rw [hf] at h
      dsimp only at h
      rcases ih _ db' h x hx with ⟨e, he, hxe⟩ | ⟨hxmem, hxid⟩
      · exact Or.inl ⟨e, List.mem_cons_of_mem _ he, hxe⟩
      · rcases mem_upsertBy (fun z => z.id.s)
            { ex with associatedWords := relinkAssociatedWords ex.associatedWords o n } x
            db.examples hxmem with hx1 | ⟨hx2, hkd⟩
        · exact Or.inl ⟨ex, List.mem_cons_self _ _, hx1⟩
        · refine Or.inr ⟨hx2, ?_⟩
          intro e he
          rcases List.mem_cons.mp he with rfl | he'
          · exact hkd
          · exact hxid e he'

theorem replaceWordIds_preserve (o n : OID) :
    ∀ (exs : List Example) (db : DB) (x : Example), x ∈ db.examples →
      (∀ e ∈ exs, x.id.s ≠ e.id.s) →
      x ∈ ((replaceWordIdsFromExampleAssociatedWords exs o n db).2).examples := by
  intro exs
  induction exs with
  | nil =>
    intro db x hx _
    exact hx
  | cons ex rest ih =>
    intro db x hx hne
    simp only [replaceWordIdsFromExampleAssociatedWords, run_bind, saveExample]
    cases hf : db.failAt db.tick with
    | some m => exact hx
    | none =>
      dsimp only
      apply ih
      · exact mem_upsertBy_of_mem (fun z => z.id.s)
          { ex with associatedWords := relinkAssociatedWords ex.associatedWords o n } x
          db.examples hx (hne ex (List.mem_cons_self _ _))
      · exact fun e he => hne e (List.mem_cons_of_mem _ he)

theorem replaceWordIds_preserve2 (o n : OID) (exs : List Example) (db db' : DB)
    (r : Except String Unit)
    (h : replaceWordIdsFromExampleAssociatedWords exs o n db = (r, db'))
    (x : Example) (hx : x ∈ db.examples) (hne : ∀ e ∈ exs, x.id.s ≠ e.id.s) :
    x ∈ db'.examples := by
  have hpre := replaceWordIds_preserve o n exs db x hx hne
  rw [h] at hpre
  exact hpre

theorem replaceWordIds_relinked_mem (o n : OID) :
    ∀ (exs : List Example) (db db' : DB),
      replaceWordIdsFromExampleAssociatedWords exs o n db = (.ok (), db') →
      (exs.map (fun e => e.id.s)).Nodup →
      ∀ e ∈ exs,
        { e with associatedWords := relinkAssociatedWords e.associatedWords o n } ∈ db'.examples := by
  intro exs
  induction exs with
  | nil =>
    intro db db' _ _ e he
    simp at he
  | cons ex rest ih =>
    intro db db' h hnodup e he
    simp only [replaceWordIdsFromExampleAssociatedWords, run_bind, saveExample] at h
    cases hf : db.failAt db.tick with
    | some m => rw [hf] at h; simp at h
    | none =>
      rw [hf] at h
      dsimp only at h
      rcases List.mem_cons.mp he with rfl | he'
      · apply replaceWordIds_preserve2 o n rest _ db' _ h _ (self_mem_upsertBy _ _ _)
        intro f hf'
        have hnotmem := (List.nodup_cons.mp hnodup).1
        intro heq
        have hmm : e.id.s ∈ rest.map (fun e2 => e2.id.s) := by
          rw [show e.id.s = f.id.s from heq]
          exact List.mem_map.mpr ⟨f, hf', rfl⟩
        exact hnotmem hmm
      · exact ih _ db' h (List.nodup_cons.mp hnodup).2 e he'

/-- C2: on a successful `deleteWord(toBeDeletedWordId, primaryWordId)` run,
the returned primary Word carries the first-seen-order duplicate-free union
of both definition lists, of both variation lists plus the deleted word's own
headword text, and of both stem lists; afterwards no Example in the store
references the deleted word's id, and every Example that did reference it now
references the primary id. -/
theorem deleteWord_consolidates (db : DB) (delId primId : OID)
    (deletedWord primaryWord W : Word) (db' : DB)
    (hdel : db.words.find? (fun w => w.id.s == delId.s) = some deletedWord)
    (hprim : db.words.find? (fun w => w.id.s == primId.s) = some primaryWord)
    (hnodup : (db.examples.map (fun e => e.id.s)).Nodup)
    (hne : primId.s ≠ delId.s)
    (hok : deleteWord delId (some primId) db = (.ok W, db')) :
    W.definitions = keepFirstBy (fun d => d) (primaryWord.definitions ++ deletedWord.definitions)
    ∧ W.variations = keepFirstBy (fun v => v)
        (primaryWord.variations ++ deletedWord.variations ++ [deletedWord.word])
    ∧ W.stems = keepFirstBy (fun st => st) (primaryWord.stems ++ deletedWord.stems)
    ∧ W.id = primaryWord.id
    ∧ (∀ x ∈ db'.examples, ∀ a ∈ x.associatedWords, a.s ≠ delId.s)
    ∧ (∀ e ∈ db.examples, (∃ a ∈ e.associatedWords, a.s = delId.s) →
        ∃ x ∈ db'.examples, x.id.s = e.id.s ∧ ∃ a ∈ x.associatedWords, a.s = primId.s) := by
  simp only [deleteWord, run_bind, findWordById, hdel, findExampleByAssociatedWordId,
    findAndUpdateWord] at hok
  cases hv : primId.valid with
  | false =>
    rw [if_pos (by simp [isValidObjectId, hv])] at hok
    simp [throwM] at hok
  | true =>
    rw [if_neg (by simp [isValidObjectId, hv])] at hok
    simp only [run_bind, findWordById, hprim] at hok
    rcases bind_ok_split _ _ _ _ _ hok with ⟨u1, db1, h1, hok2⟩
    have hdb1 := write_ok_inv _ _ _ _ h1
    subst hdb1
    rcases bind_ok_split _ _ _ _ _ hok2 with ⟨u2, db2, h2, hok3⟩
    have hdb2 := write_ok_inv _ _ _ _ h2
    subst hdb2
    rcases bind_ok_split _ _ _ _ _ hok3 with ⟨u3, db3, h3, hok4⟩
    cases u3
    rcases saveWord_ok_inv _ _ _ _ hok4 with ⟨hW, hdb'⟩
    subst hW
    subst hdb'
    refine ⟨?_, ?_, ?_, rfl, ?_, ?_⟩
    · exact uniqBy_eq_keepFirstBy _ _
    · exact uniqBy_eq_keepFirstBy _ _
    · exact uniqBy_eq_keepFirstBy _ _
    · intro x hx a ha
      rcases replaceWordIds_mem delId primId _ _ db3 h3 x hx with ⟨e, he, hxe⟩ | ⟨hx2, hxids⟩
      · subst hxe
        have := mem_relink_not_old e.associatedWords delId primId a ha
        simpa using this
      · intro haeq
        have hxexs : x ∈ db.examples.filter
            (fun e => e.associatedWords.any (fun a2 => a2.s == delId.s)) := by
          apply List.mem_filter.mpr
          refine ⟨hx2, ?_⟩
          exact List.any_eq_true.mpr ⟨a, ha, by simpa using haeq⟩
        exact hxids x hxexs rfl
    · intro e he href
      have heexs : e ∈ db.examples.filter
          (fun e2 => e2.associatedWords.any (fun a2 => a2.s == delId.s)) := by
        apply List.mem_filter.mpr
        refine ⟨he, ?_⟩
        rcases href with ⟨a, ha, haeq⟩
        exact List.any_eq_true.mpr ⟨a, ha, by simpa using haeq⟩
      have hnodup' : ((db.examples.filter
          (fun e2 => e2.associatedWords.any (fun a2 => a2.s == delId.s))).map
            (fun e2 => e2.id.s)).Nodup :=
        List.Nodup.sublist ((List.filter_sublist _).map _) hnodup
      have hrel := replaceWordIds_relinked_mem delId primId _ _ db3 h3 hnodup' e heexs
      refine ⟨{ e with associatedWords := relinkAssociatedWords e.associatedWords delId primId },
        hrel, rfl, ?_⟩
      rcases mem_relink_new e.associatedWords delId primId hne with ⟨b, hb, hbs⟩
      exact ⟨b, hb, hbs⟩

/-- Witness for C2 on the concrete `dbDel` scenario: the consolidated word's
definitions are the first-seen-order union. -/
theorem deleteWord_consolidates_witness :
    wExp.definitions = keepFirstBy (fun d => d) (wPri.definitions ++ wDel.definitions) :=
  (deleteWord_consolidates dbDel ⟨"d1", 0, true⟩ ⟨"p1", 0, true⟩ wDel wPri wExp
    ((deleteWord ⟨"d1", 0, true⟩ (some ⟨"p1", 0, true⟩) dbDel).2)
    rfl rfl (by decide) (by decide) rfl).1

/-! ## Create-vs-update branch selection for mergeWord -/

theorem ne_genId_of_no_a (s : String) (hs : 'a' ∉ s.data) (n : Nat) : s ≠ (genId n).s := by
  intro h
  apply hs
  rw [h]
  show 'a' ∈ (List.replicate (n + 1) 'a')
  exact List.mem_replicate.mpr ⟨Nat.succ_ne_zero n, rfl⟩

theorem catchWith_ok_inv {α : Type} (msg : String) (x : M α) (db db' : DB) (b : α)
    (h : catchWith msg x db = (.ok b, db')) : x db = (.ok b, db') := by
  rw [catchWith] at h
  rcases hx : x db with ⟨r, db''⟩
  rw [hx] at h
  cases r with
  | ok a => exact h
  | error e =>
    dsimp only at h
    injection h with h1 _
    simp at h1

theorem rethrow_ok_inv {α : Type} (x : M α) (db db' : DB) (b : α)
    (h : rethrowWithMessage x db = (.ok b, db')) : x db = (.ok b, db') := by
  rw [rethrowWithMessage] at h
  rcases hx : x db with ⟨r, db''⟩
  rw [hx] at h
  cases r with
  | ok a => exact h
  | error e =>
    dsimp only at h
    injection h with h1 _
    simp at h1

theorem createWordDoc_ok_inv (d : WordData) (db : DB) (w0 : Word) (dbC : DB)
    (h : createWordDoc d db = (.ok w0, dbC)) :
    w0 = { id := genId db.ctr, word := d.word, wordClass := d.wordClass, definitions := d.definitions, variations := d.variations, stems := d.stems, examples := [], authorId := none }
    ∧ dbC = { db with ctr := db.ctr + 1, tick := db.tick + 1, words := upsertBy (fun x => x.id.s) w0 db.words } := by
  rw [createWordDoc] at h
  dsimp only at h
  cases hf : db.failAt db.tick with
  | some m => rw [hf] at h; simp at h
  | none =>
    rw [hf] at h
    injection h with h1 h2
    have hw : w0 = { id := genId db.ctr, word := d.word, wordClass := d.wordClass, definitions := d.definitions, variations := d.variations, stems := d.stems, examples := [], authorId := none } := (Except.ok.inj h1).symm
    subst hw
    exact ⟨rfl, h2.symm⟩

theorem createEmbedded_words (wid : OID) :
    ∀ (exs : List EmbeddedExample) (db : DB),
      ((createEmbeddedExamples wid exs db).2).words = db.words := by
  intro exs
  induction exs with
  | nil => intro db; rfl
  | cons ex rest ih =>
    intro db
    simp only [createEmbeddedExamples]
    apply bind_preserves _ _ (fun db => db.words)
    · intro db0
      rw [createExample]
      dsimp only
      cases db0.failAt db0.tick <;> rfl
    · intro e db0
      apply bind_preserves _ _ (fun db => db.words)
      · intro db1; exact ih db1
      · intro es db1; rfl

theorem usam_words (sug : WordSuggestion) (wdoc : Word) (u : String) (db : DB) :
    ((updateSuggestionAfterMerge sug wdoc u db).2).words = db.words := by
  rw [usam_run]
  have hw : ((cascadeNestedExampleSuggestions sug.id wdoc.id u
      (db.exampleSuggestions.filter (fun e => e.associatedWords.any (fun a => a.s == sug.id.s))) db).2).words
      = db.words :=
    congrArg (fun t => t.1) (cascade_frame sug.id wdoc.id u _ db)
  revert hw
  cases hc : cascadeNestedExampleSuggestions sug.id wdoc.id u
      (db.exampleSuggestions.filter (fun e => e.associatedWords.any (fun a => a.s == sug.id.s))) db with
  | mk r1 db1 =>
    intro hw
    cases r1 with
    | error e => exact hw
    | ok a =>
      dsimp only
      rw [saveWordSuggestion]
      cases db1.failAt db1.tick with
      | some m => exact hw
      | none => exact hw

theorem wordFOU_ok_inv (oid : OID) (sug : WordSuggestion) (db db1 : DB)
    (old? : Option Word)
    (h : wordFindOneAndUpdate (some oid) sug db = (.ok old?, db1)) :
    db.words.find? (fun w => w.id.s == oid.s) = old?
    ∧ (old? = none → db1 = { db with tick := db.tick + 1 })
    ∧ (∀ old, old? = some old →
        db1 = { db with tick := db.tick + 1, words := db.words.map (fun w => if w.id.s == oid.s then applyWordSuggestion w sug else w) }) := by
  rw [wordFindOneAndUpdate] at h
  cases hf : db.failAt db.tick with
  | some m => rw [hf] at h; simp at h
  | none =>
    rw [hf] at h
    dsimp only at h
    cases hfind : db.words.find? (fun w => w.id.s == oid.s) with
    | none =>
      rw [hfind] at h
      injection h with h1 h2
      refine ⟨(Except.ok.inj h1).symm ▸ rfl, fun _ => h2.symm, fun old hold => ?_⟩
      rw [← Except.ok.inj h1] at hold
      simp at hold
    | some old0 =>
      rw [hfind] at h
      injection h with h1 h2
      refine ⟨(Except.ok.inj h1).symm ▸ rfl, fun hnone => ?_, fun old hold => h2.symm⟩
      rw [← Except.ok.inj h1] at hnone
      simp at hnone

theorem map_id_of_fixed {α : Type} (f : α → α) :
    ∀ l : List α, (∀ y ∈ l, f y = y) → l.map f = l := by
  intro l
  induction l with
  | nil => intro _; rfl
  | cons x xs ih =>
    intro h
    rw [List.map_cons, h x (List.mem_cons_self _ _),
        ih (fun y hy => h y (List.mem_cons_of_mem _ hy))]

theorem upsertBy_replace_append {α : Type} (key : α → String) (x x' : α) (l : List α)
    (hkey : key x' = key x) (hfresh : ∀ y ∈ l, key y ≠ key x) :
    upsertBy key x' (l ++ [x]) = l ++ [x'] := by
  rw [upsertBy, if_pos]
  · rw [List.map_append]
    congr 1
    · apply map_id_of_fixed
      intro y hy
      rw [if_neg]
      intro hk
      exact hfresh y hy (by rw [← hkey]; simpa using hk)
    · simp [hkey]
  · exact List.any_eq_true.mpr
      ⟨x, List.mem_append.mpr (Or.inr (List.mem_singleton.mpr rfl)), by simp [hkey]⟩

theorem head?_take1 {α : Type} (l : List α) : (l.take 1).head? = l.head? := by
  cases l <;> rfl

theorem head?_filter_eq_find? {α : Type} (p : α → Bool) :
    ∀ l : List α, (l.filter p).head? = l.find? p := by
  intro l
  induction l with
  | nil => rfl
  | cons x xs ih =>
    rw [List.filter_cons]
    by_cases hp : p x
    · rw [if_pos hp, List.find?_cons_of_pos _ hp]
      rfl
    · rw [if_neg hp, List.find?_cons_of_neg _ hp]
      exact ih

theorem find?_cons_pos' {α : Type} (p : α → Bool) (a : α) (l : List α) (h : p a = true) :
    (a :: l).find? p = some a :=
  List.find?_cons_of_pos l h

theorem find?_cons_neg' {α : Type} (p : α → Bool) (a : α) (l : List α) (h : ¬ p a = true) :
    (a :: l).find? p = l.find? p :=
  List.find?_cons_of_neg l h

theorem find?_map_update (oid : OID) (sug : WordSuggestion) :
    ∀ (l : List Word) (old : Word), l.find? (fun w => w.id.s == oid.s) = some old →
      (l.map (fun w => if w.id.s == oid.s then applyWordSuggestion w sug else w)).find?
        (fun w => w.id.s == oid.s) = some (applyWordSuggestion old sug) := by
  intro l
  induction l with
  | nil => intro old h; simp at h
  | cons w ws ih =>
    intro old h
    by_cases hp : (w.id.s == oid.s) = true
    · rw [find?_cons_pos' (fun w2 => w2.id.s == oid.s) w ws hp] at h
      rw [List.map_cons, if_pos hp,
          find?_cons_pos' (fun w2 => w2.id.s == oid.s) (applyWordSuggestion w sug)
            (ws.map (fun w2 => if w2.id.s == oid.s then applyWordSuggestion w2 sug else w2)) hp]
      rw [Option.some.inj h]
    · rw [find?_cons_neg' (fun w2 => w2.id.s == oid.s) w ws hp] at h
      rw [List.map_cons, if_neg hp,
          find?_cons_neg' (fun w2 => w2.id.s == oid.s) w
            (ws.map (fun w2 => if w2.id.s == oid.s then applyWordSuggestion w2 sug else w2)) hp]
      exact ih old h

/-- C5: branch selection of `mergeWord`.  With `originalWordId` absent and a
fresh id supply, the merge produces a brand-new canonical Word whose id
differs from every pre-existing Word and appends it, leaving every existing
Word untouched; with `originalWordId = oid` pointing at an existing Word, the
merge rewrites exactly the Word whose id string is `oid`'s (with the
suggestion's fields) and no other canonical Word, and returns it. -/
theorem mergeWord_branch_selection (db : DB) (sug : WordSuggestion) (u : String)
    (W : Word) (db' : DB) :
    (sug.originalWordId = none →
      (∀ n, db.ctr ≤ n → ∀ w ∈ db.words, w.id.s ≠ (genId n).s) →
      mergeWordCore sug u db = (.ok W, db') →
      (∀ w ∈ db.words, w.id.s ≠ W.id.s) ∧ db'.words = db.words ++ [W])
    ∧ (∀ oid, sug.originalWordId = some oid →
      mergeWordCore sug u db = (.ok W, db') →
      ∃ old, db.words.find? (fun w => w.id.s == oid.s) = some old
        ∧ W = applyWordSuggestion old sug
        ∧ db'.words = db.words.map
            (fun w => if w.id.s == oid.s then applyWordSuggestion w sug else w)) := by
  constructor
  · intro ho hids hok
    rw [mergeWordCore, ho] at hok
    have hok1 := catchWith_ok_inv _ _ _ _ _ hok
    rcases bind_ok_split _ _ _ _ _ hok1 with ⟨word, dbA, hcw, hok2⟩
    rcases bind_ok_split _ _ _ _ _ hok2 with ⟨s1, dbB, husam, hok3⟩
    injection hok3 with h1 h2
    have hWword : W = word := (Except.ok.inj h1).symm
    subst hWword
    subst h2
    rcases bind_ok_split _ _ _ _ _ hcw with ⟨w0, dbC, hdoc, hok4⟩
    rcases createWordDoc_ok_inv _ _ _ _ hdoc with ⟨hw0, hdbC⟩
    rcases bind_ok_split _ _ _ _ _ hok4 with ⟨res, dbD, hemb, hsave⟩
    rcases saveWord_ok_inv _ _ _ _ hsave with ⟨hWsave, hdbE⟩
    have hfresh : ∀ y ∈ db.words, y.id.s ≠ (genId db.ctr).s :=
      fun y hy => hids db.ctr (Nat.le_refl _) y hy
    have hCwords : dbC.words = db.words ++ [w0] := by
      rw [hdbC]
      show upsertBy (fun x => x.id.s) w0 db.words = db.words ++ [w0]
      apply upsertBy_eq_append
      intro y hy
      rw [hw0]
      exact hfresh y hy
    have hDwords : dbD.words = db.words ++ [w0] := by
      have hd := createEmbedded_words w0.id sug.toWordData.examples dbC
      rw [hemb] at hd
      rw [hd, hCwords]
    have hBwords : dbB.words = dbA.words := by
      have hu := usam_words sug W u dbA
      rw [husam] at hu
      exact hu
    have hAwords : dbA.words = db.words ++ [{ w0 with examples := res.map (fun e => e.id) }] := by
      rw [hdbE]
      show upsertBy (fun x => x.id.s) _ dbD.words = _
      rw [hDwords]
      apply upsertBy_replace_append
      · rfl
      · intro y hy
        rw [hw0]
        exact hfresh y hy
    constructor
    · intro w hw
      rw [hWsave, hw0]
      exact hfresh w hw
    · rw [hBwords, hAwords, hWsave]
  · intro oid ho hok
    rw [mergeWordCore, ho] at hok
    have hok1 := rethrow_ok_inv _ _ _ _ hok
    rcases bind_ok_split _ _ _ _ _ hok1 with ⟨old?, db1, hfou, hok2⟩
    rw [ho] at hfou
    rcases wordFOU_ok_inv _ _ _ _ _ hfou with ⟨hfind, hnone, hsome⟩
    cases old? with
    | none =>
      dsimp only at hok2
      simp [throwM] at hok2
    | some old =>
      have hdb1 := hsome old rfl
      dsimp only at hok2
      rcases bind_ok_split _ _ _ _ _ hok2 with ⟨s1, db2, husam, hok3⟩
      rw [ho] at hok3
      rcases bind_ok_split _ _ _ _ _ hok3 with ⟨found, db3, hfetch, hok4⟩
      rw [findWordsWithMatchById] at hfetch
      injection hfetch with hf1 hf2
      have hfound : found = (db3.words.filter (fun w => w.id.s == oid.s)).take 1 := by
        rw [← Except.ok.inj hf1, hf2]
      have h2words : db2.words = db.words.map
          (fun w => if w.id.s == oid.s then applyWordSuggestion w sug else w) := by
        have hu := usam_words sug old u db1
        rw [husam] at hu
        rw [hu, hdb1]
      have h3words : db3.words = db2.words := by rw [← hf2]
      have hhead : found.head? = some (applyWordSuggestion old sug) := by
        rw [hfound, head?_take1, head?_filter_eq_find?, h3words, h2words]
        exact find?_map_update oid sug db.words old hfind
      rw [hhead] at hok4
      dsimp only at hok4
      injection hok4 with h1 h2
      refine ⟨old, hfind, (Except.ok.inj h1).symm, ?_⟩
      rw [← h2, h3words, h2words]

/-! ## The post-merge cascade relinks and merges nested Example Suggestions -/

theorem relinkNested_good (l : List OID) (sid wid : OID) (hneq : wid.s ≠ sid.s) :
    GoodAssoc sid wid (relinkNestedAssociatedWords l sid wid) := by
  rw [relinkNestedAssociatedWords, GoodAssoc]
  by_cases hmem : wid ∈ l.filter (fun a => !(a.s == sid.s))
  · rw [if_pos hmem]
    refine ⟨⟨wid, hmem, rfl⟩, ?_⟩
    intro a ha
    have := (List.mem_filter.mp ha).2
    simpa using this
  · rw [if_neg hmem]
    constructor
    · exact ⟨wid, List.mem_append.mpr (Or.inr (List.mem_singleton.mpr rfl)), rfl⟩
    · intro a ha
      rcases List.mem_append.mp ha with ha' | ha'
      · have := (List.mem_filter.mp ha').2
        simpa using this
      · rw [List.mem_singleton.mp ha']
        exact hneq

theorem saveES_ok_inv (e : ExampleSuggestion) (db db' : DB) (e' : ExampleSuggestion)
    (h : saveExampleSuggestion e db = (.ok e', db')) :
    e' = e ∧ db' = { db with tick := db.tick + 1, exampleSuggestions := upsertBy (fun x => x.id.s) e db.exampleSuggestions } := by
  rw [saveExampleSuggestion] at h
  cases hf : db.failAt db.tick with
  | some m => rw [hf] at h; simp at h
  | none =>
    rw [hf] at h
    injection h with h1 h2
    exact ⟨(Except.ok.inj h1).symm, h2.symm⟩

theorem createExample_ok_inv (d : ExampleData) (db db' : DB) (ex : Example)
    (h : createExample d db = (.ok ex, db')) :
    ex = { id := genId db.ctr, igbo := d.igbo, english := d.english, associatedWords := d.associatedWords }
    ∧ db' = { db with ctr := db.ctr + 1, tick := db.tick + 1, examples := upsertBy (fun x => x.id.s) ex db.examples } := by
  rw [createExample] at h
  dsimp only at h
  cases hf : db.failAt db.tick with
  | some m => rw [hf] at h; simp at h
  | none =>
    rw [hf] at h
    injection h with h1 h2
    have hex : ex = { id := genId db.ctr, igbo := d.igbo, english := d.english, associatedWords := d.associatedWords } := (Except.ok.inj h1).symm
    subst hex
    exact ⟨rfl, h2.symm⟩

theorem exampleFOU_ok_inv (oid : OID) (es : ExampleSuggestion) (db db1 : DB)
    (old? : Option Example)
    (h : exampleFindOneAndUpdate (some oid) es db = (.ok old?, db1)) :
    db.examples.find? (fun e => e.id.s == oid.s) = old?
    ∧ (old? = none → db1 = { db with tick := db.tick + 1 })
    ∧ (∀ old, old? = some old →
        db1 = { db with tick := db.tick + 1, examples := db.examples.map (fun e => if e.id.s == oid.s then applyExampleSuggestion e es else e) }) := by
  rw [exampleFindOneAndUpdate] at h
  cases hf : db.failAt db.tick with
  | some m => rw [hf] at h; simp at h
  | none =>
    rw [hf] at h
    dsimp only at h
    cases hfind : db.examples.find? (fun e => e.id.s == oid.s) with
    | none =>
      rw [hfind] at h
      injection h with h1 h2
      refine ⟨(Except.ok.inj h1).symm ▸ rfl, fun _ => h2.symm, fun old hold => ?_⟩
      rw [← Except.ok.inj h1] at hold
      simp at hold
    | some old0 =>
      rw [hfind] at h
      injection h with h1 h2
      refine ⟨(Except.ok.inj h1).symm ▸ rfl, fun hnone => ?_, fun old hold => h2.symm⟩
      rw [← Except.ok.inj h1] at hnone
      simp at hnone

theorem exe_ES (sid : OID) (u : String) (db : DB) :
    ((executeMergeExample sid u db).2).exampleSuggestions = db.exampleSuggestions :=
  congrArg (fun t => t.2.2) (executeMergeExample_frame sid u db)

theorem exe_words (sid : OID) (u : String) (db : DB) :
    ((executeMergeExample sid u db).2).words = db.words :=
  congrArg (fun t => t.1) (executeMergeExample_frame sid u db)

theorem createEmbedded_ES (wid : OID) :
    ∀ (exs : List EmbeddedExample) (db : DB),
      ((createEmbeddedExamples wid exs db).2).exampleSuggestions = db.exampleSuggestions := by
  intro exs
  induction exs with
  | nil => intro db; rfl
  | cons ex rest ih =>
    intro db
    simp only [createEmbeddedExamples]
    apply bind_preserves _ _ (fun db => db.exampleSuggestions)
    · intro db0
      rw [createExample]
      dsimp only
      cases db0.failAt db0.tick <;> rfl
    · intro e db0
      apply bind_preserves _ _ (fun db => db.exampleSuggestions)
      · intro db1; exact ih db1
      · intro es db1; rfl

theorem createWord_ES (d : WordData) (db : DB) :
    ((createWord d db).2).exampleSuggestions = db.exampleSuggestions := by
  simp only [createWord]
  apply bind_preserves _ _ (fun db => db.exampleSuggestions)
  · intro db0
    rw [createWordDoc]
    dsimp only
    cases db0.failAt db0.tick <;> rfl
  · intro w0 db0
    apply bind_preserves _ _ (fun db => db.exampleSuggestions)
    · intro db1; exact createEmbedded_ES w0.id d.examples db1
    · intro res db1
      rw [saveWord]
      cases db1.failAt db1.tick <;> rfl

theorem exe_ok_creates (sid : OID) (u : String) (db db2 : DB) (ex : Example)
    (hok : executeMergeExample sid u db = (.ok ex, db2)) :
    ∃ es, db.exampleSuggestions.find? (fun e => e.id.s == sid.s) = some es
      ∧ ∃ x, x ∈ db2.examples ∧ x.associatedWords = es.associatedWords := by
  cases hfind : db.exampleSuggestions.find? (fun e => e.id.s == sid.s) with
  | none =>
    exfalso
    simp only [executeMergeExample, run_bind, findExampleSuggestionById, hfind, throwM] at hok
    simp at hok
  | some es =>
    refine ⟨es, rfl, ?_⟩
    rw [executeMergeExample_run_found db sid u es hfind] at hok
    by_cases h1 : es.igbo = "" ∧ es.english = ""
    · rw [if_pos h1] at hok; simp at hok
    · rw [if_neg h1] at hok
      by_cases h2 : (es.associatedWords.any fun a => !(isValidObjectId a)) = true
      · rw [if_pos h2] at hok; simp at hok
      · rw [if_neg h2] at hok
        by_cases h3 : ∀ a ∈ es.associatedWords, (db.words.find? (fun w => w.id.s == a.s)).isSome
        · rw [if_pos h3] at hok
          by_cases h4 : es.associatedWords.length ≠ (uniq es.associatedWords).length
          · rw [if_pos h4] at hok; simp at hok
          · rw [if_neg h4] at hok
            cases ho : es.originalExampleId with
            | none =>
              rw [ho] at hok
              dsimp only at hok
              have hok1 := catchWith_ok_inv _ _ _ _ _ hok
              rcases bind_ok_split _ _ _ _ _ hok1 with ⟨ex0, dbX, hce, hok2⟩
              dsimp only at hok2
              injection hok2 with hp1 hp2
              rcases createExample_ok_inv _ _ _ _ hce with ⟨hex0, hdbX⟩
              refine ⟨ex0, ?_, ?_⟩
              · rw [← hp2, hdbX]
                exact self_mem_upsertBy _ _ _
              · rw [hex0]
            | some oid =>
              rw [ho] at hok
              dsimp only at hok
              simp only [mergeIntoExample] at hok
              rcases bind_ok_split _ _ _ _ _ hok with ⟨old?, db1, hfou, hok2⟩
              cases old? with
              | none =>
                dsimp only at hok2
                simp [throwM] at hok2
              | some old =>
                dsimp only at hok2
                injection hok2 with hp1 hp2
                rw [ho] at hfou
                rcases exampleFOU_ok_inv _ _ _ _ _ hfou with ⟨hfindex, _, hsome⟩
                have hdb1 := hsome old rfl
                refine ⟨applyExampleSuggestion old es, ?_, rfl⟩
                rw [← hp2, hdb1]
                show applyExampleSuggestion old es ∈ db.examples.map
                  (fun e => if e.id.s == oid.s then applyExampleSuggestion e es else e)
                have hmemold := List.mem_of_find?_eq_some hfindex
                have hpold : (old.id.s == oid.s) = true := by
                  have hb := List.find?_some hfindex
                  simpa using hb
                have himg := List.mem_map_of_mem
                  (fun e => if e.id.s == oid.s then applyExampleSuggestion e es else e) hmemold
                dsimp only at himg
                rw [if_pos hpold] at himg
                exact himg
        · rw [if_neg h3] at hok; simp at hok

theorem createEFS_forward (es : ExampleSuggestion) (u : String) (db : DB) (x : Example)
    (hx : x ∈ db.examples) :
    ∃ y, y ∈ ((createExampleFromSuggestion es u db).2).examples
      ∧ (y = x ∨ y.associatedWords = es.associatedWords) := by
  rw [createExampleFromSuggestion, catchWith_state]
  rw [run_bind, createExample]
  dsimp only
  cases hf : db.failAt db.tick with
  | some m => exact ⟨x, hx, Or.inl rfl⟩
  | none =>
    dsimp only
    by_cases hid : x.id.s = (genId db.ctr).s
    · exact ⟨{ id := genId db.ctr, igbo := es.igbo, english := es.english, associatedWords := es.associatedWords },
        self_mem_upsertBy _ _ _, Or.inr rfl⟩
    · exact ⟨x, mem_upsertBy_of_mem _ _ _ _ hx hid, Or.inl rfl⟩

theorem mergeIE_forward (es : ExampleSuggestion) (u : String) (db : DB) (x : Example)
    (hx : x ∈ db.examples) :
    ∃ y, y ∈ ((mergeIntoExample es u db).2).examples
      ∧ (y = x ∨ y.associatedWords = es.associatedWords) := by
  simp only [mergeIntoExample, run_bind, exampleFindOneAndUpdate]
  cases hf : db.failAt db.tick with
  | some m => exact ⟨x, hx, Or.inl rfl⟩
  | none =>
    dsimp only
    cases es.originalExampleId with
    | none => exact ⟨x, hx, Or.inl rfl⟩
    | some oid =>
      dsimp only
      cases hfind2 : db.examples.find? (fun e => e.id.s == oid.s) with
      | none => exact ⟨x, hx, Or.inl rfl⟩
      | some old =>
        dsimp only
        by_cases hpx : (x.id.s == oid.s) = true
        · refine ⟨applyExampleSuggestion x es, ?_, Or.inr rfl⟩
          have himg := List.mem_map_of_mem
            (fun e => if e.id.s == oid.s then applyExampleSuggestion e es else e) hx
          dsimp only at himg
          rw [if_pos hpx] at himg
          exact himg
        · refine ⟨x, ?_, Or.inl rfl⟩
          have himg := List.mem_map_of_mem
            (fun e => if e.id.s == oid.s then applyExampleSuggestion e es else e) hx
          dsimp only at himg
          rw [if_neg hpx] at himg
          exact himg

theorem exe_examples_forward (sid : OID) (u : String) (db : DB) (x : Example)
    (hx : x ∈ db.examples) :
    ∃ y, y ∈ ((executeMergeExample sid u db).2).examples
      ∧ (y = x ∨ ∃ es, db.exampleSuggestions.find? (fun e => e.id.s == sid.s) = some es
          ∧ y.associatedWords = es.associatedWords) := by
  cases hfind : db.exampleSuggestions.find? (fun e => e.id.s == sid.s) with
  | none =>
    refine ⟨x, ?_, Or.inl rfl⟩
    simp only [executeMergeExample, run_bind, findExampleSuggestionById, hfind, throwM]
    exact hx
  | some es =>
    rw [executeMergeExample_run_found db sid u es hfind]
    by_cases h1 : es.igbo = "" ∧ es.english = ""
    · rw [if_pos h1]; exact ⟨x, hx, Or.inl rfl⟩
    · rw [if_neg h1]
      by_cases h2 : (es.associatedWords.any fun a => !(isValidObjectId a)) = true
      · rw [if_pos h2]; exact ⟨x, hx, Or.inl rfl⟩
      · rw [if_neg h2]
        by_cases h3 : ∀ a ∈ es.associatedWords, (db.words.find? (fun w => w.id.s == a.s)).isSome
        · rw [if_pos h3]
          by_cases h4 : es.associatedWords.length ≠ (uniq es.associatedWords).length
          · rw [if_pos h4]; exact ⟨x, hx, Or.inl rfl⟩
          · rw [if_neg h4]
            cases ho : es.originalExampleId with
            | some oid =>
              rcases mergeIE_forward es u db x hx with ⟨y, hy, hc⟩
              exact ⟨y, hy, hc.imp id (fun h => ⟨es, rfl, h⟩)⟩
            | none =>
              rcases createEFS_forward es u db x hx with ⟨y, hy, hc⟩
              exact ⟨y, hy, hc.imp id (fun h => ⟨es, rfl, h⟩)⟩
        · rw [if_neg h3]; exact ⟨x, hx, Or.inl rfl⟩

theorem saveES_state (e : ExampleSuggestion) (db : DB) :
    ((saveExampleSuggestion e db).2).examples = db.examples
    ∧ ((saveExampleSuggestion e db).2).words = db.words := by
  rw [saveExampleSuggestion]
  cases db.failAt db.tick <;> exact ⟨rfl, rfl⟩

theorem saveES_err_state (e : ExampleSuggestion) (db db' : DB) (msg : String)
    (h : saveExampleSuggestion e db = (.error msg, db')) :
    db' = { db with tick := db.tick + 1 } := by
  rw [saveExampleSuggestion] at h
  cases hf : db.failAt db.tick with
  | some m =>
    rw [hf] at h
    injection h with _ h2
    exact h2.symm
  | none =>
    rw [hf] at h
    simp at h

theorem mergeNested_ok_effects (sid wid : OID) (u : String) (E : ExampleSuggestion)
    (db db2 : DB) (ex : Example) (hneq : wid.s ≠ sid.s)
    (hok : mergeNestedExampleSuggestion sid wid u E db = (.ok ex, db2)) :
    ({ E with associatedWords := relinkNestedAssociatedWords E.associatedWords sid wid } ∈ db2.exampleSuggestions)
    ∧ ∃ x, x ∈ db2.examples ∧ GoodAssoc sid wid x.associatedWords := by
  simp only [mergeNestedExampleSuggestion] at hok
  rcases bind_ok_split _ _ _ _ _ hok with ⟨E'', db1, hsave, hexe⟩
  rcases saveES_ok_inv _ _ _ _ hsave with ⟨hE'', hdb1⟩
  subst hE''
  constructor
  · have hmem : ({ E with associatedWords := relinkNestedAssociatedWords E.associatedWords sid wid } : ExampleSuggestion) ∈ db1.exampleSuggestions := by
      rw [hdb1]
      exact self_mem_upsertBy _ _ _
    have hES := exe_ES ({ E with associatedWords := relinkNestedAssociatedWords E.associatedWords sid wid } : ExampleSuggestion).id u db1
    rw [hexe] at hES
    rw [hES]
    exact hmem
  · rcases exe_ok_creates _ _ _ _ _ hexe with ⟨es, hfindes, x, hxmem, hxassoc⟩
    have hfind1 : db1.exampleSuggestions.find?
        (fun e => e.id.s == ({ E with associatedWords := relinkNestedAssociatedWords E.associatedWords sid wid } : ExampleSuggestion).id.s)
        = some { E with associatedWords := relinkNestedAssociatedWords E.associatedWords sid wid } := by
      rw [hdb1]
      exact find?_upsertBy _ _ _
    rw [hfind1] at hfindes
    injection hfindes with hes
    refine ⟨x, hxmem, ?_⟩
    rw [hxassoc, ← hes]
    exact relinkNested_good E.associatedWords sid wid hneq

theorem mergeNested_forward (sid wid : OID) (u : String) (E : ExampleSuggestion)
    (db : DB) (x : Example) (hx : x ∈ db.examples) :
    ∃ y, y ∈ (((mergeNestedExampleSuggestion sid wid u E db).2)).examples
      ∧ (y = x ∨ y.associatedWords = relinkNestedAssociatedWords E.associatedWords sid wid) := by
  simp only [mergeNestedExampleSuggestion, run_bind]
  rcases hs : saveExampleSuggestion
      { E with associatedWords := relinkNestedAssociatedWords E.associatedWords sid wid } db
    with ⟨rs, db1⟩
  cases rs with
  | error msg =>
    have hdb1 := saveES_err_state _ _ _ _ hs
    subst hdb1
    exact ⟨x, hx, Or.inl rfl⟩
  | ok E'' =>
    rcases saveES_ok_inv _ _ _ _ hs with ⟨hE'', hdb1⟩
    subst hE''
    have hx1 : x ∈ db1.examples := by
      rw [hdb1]
      exact hx
    rcases exe_examples_forward _ u db1 x hx1 with ⟨y, hy, hc⟩
    refine ⟨y, hy, ?_⟩
    rcases hc with rfl | ⟨es, hfindes, hass⟩
    · exact Or.inl rfl
    · have hfind1 : db1.exampleSuggestions.find?
          (fun e => e.id.s == ({ E with associatedWords := relinkNestedAssociatedWords E.associatedWords sid wid } : ExampleSuggestion).id.s)
          = some { E with associatedWords := relinkNestedAssociatedWords E.associatedWords sid wid } := by
        rw [hdb1]
        exact find?_upsertBy _ _ _
      rw [hfind1] at hfindes
      injection hfindes with hes
      refine Or.inr ?_
      rw [hass, ← hes]

theorem mergeNested_ES_preserve (sid wid : OID) (u : String) (E : ExampleSuggestion)
    (db : DB) (es0 : ExampleSuggestion) (h0 : es0 ∈ db.exampleSuggestions)
    (hne : es0.id.s ≠ E.id.s) :
    es0 ∈ (((mergeNestedExampleSuggestion sid wid u E db).2)).exampleSuggestions := by
  simp only [mergeNestedExampleSuggestion, run_bind]
  rcases hs : saveExampleSuggestion
      { E with associatedWords := relinkNestedAssociatedWords E.associatedWords sid wid } db
    with ⟨rs, db1⟩
  cases rs with
  | error msg =>
    have hdb1 := saveES_err_state _ _ _ _ hs
    subst hdb1
    exact h0
  | ok E'' =>
    rcases saveES_ok_inv _ _ _ _ hs with ⟨hE'', hdb1⟩
    subst hE''
    have hES := exe_ES ({ E with associatedWords := relinkNestedAssociatedWords E.associatedWords sid wid } : ExampleSuggestion).id u db1
    rw [hES, hdb1]
    exact mem_upsertBy_of_mem _ _ _ _ h0 hne

theorem cascade_ES_preserve (sid wid : OID) (u : String) :
    ∀ (L : List ExampleSuggestion) (db : DB) (es0 : ExampleSuggestion),
      es0 ∈ db.exampleSuggestions → (∀ F ∈ L, es0.id.s ≠ F.id.s) →
      es0 ∈ (((cascadeNestedExampleSuggestions sid wid u L db).2)).exampleSuggestions := by
  intro L
  induction L with
  | nil => intro db es0 h0 _; exact h0
  | cons E rest ih =>
    intro db es0 h0 hne
    simp only [cascadeNestedExampleSuggestions, run_bind]
    rcases hm : mergeNestedExampleSuggestion sid wid u E db with ⟨rm, db2⟩
    have h2 : es0 ∈ db2.exampleSuggestions := by
      have hpres := mergeNested_ES_preserve sid wid u E db es0 h0 (hne E (List.mem_cons_self _ _))
      rw [hm] at hpres
      exact hpres
    cases rm with
    | error e => exact h2
    | ok ex => exact ih db2 es0 h2 (fun F hF => hne F (List.mem_cons_of_mem _ hF))

theorem cascade_good_preserve (sid wid : OID) (u : String) (hneq : wid.s ≠ sid.s) :
    ∀ (L : List ExampleSuggestion) (db : DB),
      (∃ x, x ∈ db.examples ∧ GoodAssoc sid wid x.associatedWords) →
      ∃ y, y ∈ (((cascadeNestedExampleSuggestions sid wid u L db).2)).examples
        ∧ GoodAssoc sid wid y.associatedWords := by
  intro L
  induction L with
  | nil => intro db h; exact h
  | cons E rest ih =>
    intro db h
    rcases h with ⟨x, hx, hgood⟩
    simp only [cascadeNestedExampleSuggestions, run_bind]
    rcases hm : mergeNestedExampleSuggestion sid wid u E db with ⟨rm, db2⟩
    have h2 : ∃ y, y ∈ db2.examples ∧ GoodAssoc sid wid y.associatedWords := by
      rcases mergeNested_forward sid wid u E db x hx with ⟨y, hy, hc⟩
      rw [hm] at hy
      refine ⟨y, hy, ?_⟩
      rcases hc with rfl | hass
      · exact hgood
      · rw [hass]
        exact relinkNested_good E.associatedWords sid wid hneq
    cases rm with
    | error e => exact h2
    | ok ex => exact ih db2 h2

theorem cascade_effects (sid wid : OID) (u : String) (hneq : wid.s ≠ sid.s) :
    ∀ (L : List ExampleSuggestion) (db db' : DB),
      cascadeNestedExampleSuggestions sid wid u L db = (.ok (), db') →
      (L.map (fun e => e.id.s)).Nodup →
      ∀ E ∈ L,
        ({ E with associatedWords := relinkNestedAssociatedWords E.associatedWords sid wid } ∈ db'.exampleSuggestions)
        ∧ ∃ y, y ∈ db'.examples ∧ GoodAssoc sid wid y.associatedWords := by
  intro L
  induction L with
  | nil => intro db db' _ _ E hE; simp at hE
  | cons F rest ih =>
    intro db db' hok hnodup E hE
    simp only [cascadeNestedExampleSuggestions] at hok
    rcases bind_ok_split _ _ _ _ _ hok with ⟨ex, db2, hm, hrest⟩
    rcases List.mem_cons.mp hE with rfl | hE'
    · rcases mergeNested_ok_effects sid wid u E db db2 ex hneq hm with ⟨ha, hb⟩
      constructor
      · have hneF : ∀ F' ∈ rest,
            ({ E with associatedWords := relinkNestedAssociatedWords E.associatedWords sid wid } : ExampleSuggestion).id.s ≠ F'.id.s := by
          intro F' hF' heq
          exact (List.nodup_cons.mp hnodup).1 (List.mem_map.mpr ⟨F', hF', heq.symm⟩)
        have hpres := cascade_ES_preserve sid wid u rest db2 _ ha hneF
        rw [hrest] at hpres
        exact hpres
      · have hgp := cascade_good_preserve sid wid u hneq rest db2 hb
        rw [hrest] at hgp
        exact hgp
    · exact ih db2 db' hrest (List.nodup_cons.mp hnodup).2 E hE'

theorem saveWS_state (s : WordSuggestion) (db : DB) :
    ((saveWordSuggestion s db).2).exampleSuggestions = db.exampleSuggestions
    ∧ ((saveWordSuggestion s db).2).examples = db.examples := by
  rw [saveWordSuggestion]
  cases db.failAt db.tick <;> exact ⟨rfl, rfl⟩

theorem usam_cascade_effects (sug : WordSuggestion) (wdoc : Word) (u : String)
    (db db' : DB) (s' : WordSuggestion)
    (hok : updateSuggestionAfterMerge sug wdoc u db = (.ok s', db'))
    (hnodup : (db.exampleSuggestions.map (fun e => e.id.s)).Nodup)
    (hneq : wdoc.id.s ≠ sug.id.s) :
    ∀ E ∈ db.exampleSuggestions, (∃ a ∈ E.associatedWords, a.s = sug.id.s) →
      ({ E with associatedWords := relinkNestedAssociatedWords E.associatedWords sug.id wdoc.id } ∈ db'.exampleSuggestions)
      ∧ ∃ y, y ∈ db'.examples ∧ GoodAssoc sug.id wdoc.id y.associatedWords := by
  intro E hE hEref
  rw [usam_run] at hok
  revert hok
  cases hc : cascadeNestedExampleSuggestions sug.id wdoc.id u
      (db.exampleSuggestions.filter (fun e => e.associatedWords.any (fun a => a.s == sug.id.s))) db with
  | mk r1 db1 =>
    intro hok
    cases r1 with
    | error e1 =>
      dsimp only at hok
      injection hok with h1 _
      simp at h1
    | ok a =>
      cases a
      dsimp only at hok
      have hsave := saveWS_state (updateDocumentMerge sug wdoc.id u) db1
      rw [hok] at hsave
      have hEinL : E ∈ db.exampleSuggestions.filter
          (fun e => e.associatedWords.any (fun a => a.s == sug.id.s)) := by
        apply List.mem_filter.mpr
        refine ⟨hE, ?_⟩
        rcases hEref with ⟨a, ha, has⟩
        exact List.any_eq_true.mpr ⟨a, ha, by simpa using has⟩
      have hnodup' : ((db.exampleSuggestions.filter
          (fun e => e.associatedWords.any (fun a => a.s == sug.id.s))).map
            (fun e => e.id.s)).Nodup :=
        List.Nodup.sublist ((List.filter_sublist _).map _) hnodup
      rcases cascade_effects sug.id wdoc.id u hneq _ db db1 hc hnodup' E hEinL with ⟨hmem, hgood⟩
      constructor
      · rw [hsave.1]
        exact hmem
      · rw [hsave.2]
        exact hgood

theorem genId_s_inj {m n : Nat} (h : (genId m).s = (genId n).s) : m = n := by
  have hd : (List.replicate (m + 1) 'a').length = (List.replicate (n + 1) 'a').length := by
    have hdata : (genId m).s.data = (genId n).s.data := by rw [h]
    exact congrArg List.length hdata
  simp only [List.length_replicate] at hd
  omega

theorem createExample_ok_fresh (d : ExampleData) (db db' : DB) (ex : Example)
    (h : createExample d db = (.ok ex, db'))
    (hfresh : ∀ n, db.ctr ≤ n → ∀ e ∈ db.examples, e.id.s ≠ (genId n).s) :
    (∀ n, db'.ctr ≤ n → ∀ e ∈ db'.examples, e.id.s ≠ (genId n).s)
    ∧ ∀ y ∈ db.examples, y ∈ db'.examples := by
  rcases createExample_ok_inv _ _ _ _ h with ⟨hex, hdb⟩
  subst hdb
  constructor
  · intro n hn e he
    have hn' : db.ctr + 1 ≤ n := hn
    have he' : e ∈ upsertBy (fun x => x.id.s) ex db.examples := he
    rcases mem_upsertBy _ _ _ _ he' with rfl | ⟨hmem, _⟩
    · rw [hex]
      show (genId db.ctr).s ≠ (genId n).s
      intro hcontra
      have hcn := genId_s_inj hcontra
      omega
    · exact hfresh n (by omega) e hmem
  · intro y hy
    have hne : y.id.s ≠ (genId db.ctr).s := hfresh db.ctr (Nat.le_refl _) y hy
    show y ∈ upsertBy (fun x => x.id.s) ex db.examples
    apply mem_upsertBy_of_mem
    · exact hy
    · show y.id.s ≠ ex.id.s
      rw [hex]
      exact hne

theorem createEFS_ok_fresh (es : ExampleSuggestion) (u : String) (db db' : DB) (ex : Example)
    (h : createExampleFromSuggestion es u db = (.ok ex, db'))
    (hfresh : ∀ n, db.ctr ≤ n → ∀ e ∈ db.examples, e.id.s ≠ (genId n).s) :
    (∀ n, db'.ctr ≤ n → ∀ e ∈ db'.examples, e.id.s ≠ (genId n).s)
    ∧ ∀ y ∈ db.examples, y ∈ db'.examples := by
  have h1 := catchWith_ok_inv _ _ _ _ _ h
  rcases bind_ok_split _ _ _ _ _ h1 with ⟨ex0, dbX, hce, h2⟩
  dsimp only at h2
  injection h2 with hp1 hp2
  subst hp2
  exact createExample_ok_fresh _ _ _ _ hce hfresh

theorem exe_ok_fresh (sid : OID) (u : String) (db db2 : DB) (ex : Example)
    (hok : executeMergeExample sid u db = (.ok ex, db2))
    (hfresh : ∀ n, db.ctr ≤ n → ∀ e ∈ db.examples, e.id.s ≠ (genId n).s)
    (hnoneAll : ∀ F ∈ db.exampleSuggestions, F.originalExampleId = none) :
    (∀ n, db2.ctr ≤ n → ∀ e ∈ db2.examples, e.id.s ≠ (genId n).s)
    ∧ ∀ y ∈ db.examples, y ∈ db2.examples := by
  cases hfind : db.exampleSuggestions.find? (fun e => e.id.s == sid.s) with
  | none =>
    exfalso
    simp only [executeMergeExample, run_bind, findExampleSuggestionById, hfind, throwM] at hok
    simp at hok
  | some es =>
    have hesnone : es.originalExampleId = none :=
      hnoneAll es (List.mem_of_find?_eq_some hfind)
    rw [executeMergeExample_run_found db sid u es hfind] at hok
    by_cases h1 : es.igbo = "" ∧ es.english = ""
    · rw [if_pos h1] at hok; simp at hok
    · rw [if_neg h1] at hok
      by_cases h2 : (es.associatedWords.any fun a => !(isValidObjectId a)) = true
      · rw [if_pos h2] at hok; simp at hok
      · rw [if_neg h2] at hok
        by_cases h3 : ∀ a ∈ es.associatedWords, (db.words.find? (fun w => w.id.s == a.s)).isSome
        · rw [if_pos h3] at hok
          by_cases h4 : es.associatedWords.length ≠ (uniq es.associatedWords).length
          · rw [if_pos h4] at hok; simp at hok
          · rw [if_neg h4] at hok
            rw [hesnone] at hok
            dsimp only at hok
            exact createEFS_ok_fresh es u db db2 ex hok hfresh
        · rw [if_neg h3] at hok; simp at hok

theorem mergeNested_ok_fresh (sid wid : OID) (u : String) (F : ExampleSuggestion)
    (db db2 : DB) (ex : Example)
    (hok : mergeNestedExampleSuggestion sid wid u F db = (.ok ex, db2))
    (hfresh : ∀ n, db.ctr ≤ n → ∀ e ∈ db.examples, e.id.s ≠ (genId n).s)
    (hnoneAll : ∀ G ∈ db.exampleSuggestions, G.originalExampleId = none)
    (hFnone : F.originalExampleId = none) :
    (∀ n, db2.ctr ≤ n → ∀ e ∈ db2.examples, e.id.s ≠ (genId n).s)
    ∧ (∀ y ∈ db.examples, y ∈ db2.examples)
    ∧ ∀ G ∈ db2.exampleSuggestions, G.originalExampleId = none := by
  simp only [mergeNestedExampleSuggestion] at hok
  rcases bind_ok_split _ _ _ _ _ hok with ⟨F'', db1, hsave, hexe⟩
  rcases saveES_ok_inv _ _ _ _ hsave with ⟨hF'', hdb1⟩
  subst hF''
  have hfresh1 : ∀ n, db1.ctr ≤ n → ∀ e ∈ db1.examples, e.id.s ≠ (genId n).s := by
    rw [hdb1]
    exact hfresh
  have hnone1 : ∀ G ∈ db1.exampleSuggestions, G.originalExampleId = none := by
    rw [hdb1]
    intro G hG
    have hG' : G ∈ upsertBy (fun x => x.id.s)
        ({ F with associatedWords := relinkNestedAssociatedWords F.associatedWords sid wid } : ExampleSuggestion)
        db.exampleSuggestions := hG
    rcases mem_upsertBy _ _ _ _ hG' with rfl | ⟨hmem, _⟩
    · exact hFnone
    · exact hnoneAll G hmem
  rcases exe_ok_fresh _ u db1 db2 ex hexe hfresh1 hnone1 with ⟨hf2, hp2⟩
  have hES := exe_ES ({ F with associatedWords := relinkNestedAssociatedWords F.associatedWords sid wid } : ExampleSuggestion).id u db1
  rw [hexe] at hES
  refine ⟨hf2, ?_, ?_⟩
  · intro y hy
    apply hp2
    rw [hdb1]
    exact hy
  · intro G hG
    rw [hES] at hG
    exact hnone1 G hG

theorem cascade_ok_fresh (sid wid : OID) (u : String) :
    ∀ (L : List ExampleSuggestion) (db db' : DB),
      cascadeNestedExampleSuggestions sid wid u L db = (.ok (), db') →
      (∀ n, db.ctr ≤ n → ∀ e ∈ db.examples, e.id.s ≠ (genId n).s) →
      (∀ F ∈ db.exampleSuggestions, F.originalExampleId = none) →
      (∀ F ∈ L, F.originalExampleId = none) →
      ∀ y ∈ db.examples, y ∈ db'.examples := by
  intro L
  induction L with
  | nil =>
    intro db db' hok _ _ _ y hy
    have h2 : db = db' := congrArg Prod.snd hok
    rw [← h2]
    exact hy
  | cons F rest ih =>
    intro db db' hok hfresh hnoneAll hLnone y hy
    simp only [cascadeNestedExampleSuggestions] at hok
    rcases bind_ok_split _ _ _ _ _ hok with ⟨ex, db2, hm, hrest⟩
    rcases mergeNested_ok_fresh sid wid u F db db2 ex hm hfresh hnoneAll
      (hLnone F (List.mem_cons_self _ _)) with ⟨hfresh2, hpres, hnone2⟩
    exact ih db2 db' hrest hfresh2 hnone2
      (fun G hG => hLnone G (List.mem_cons_of_mem _ hG)) y (hpres y hy)

theorem exe_ok_tied (sid : OID) (u : String) (db db2 : DB) (ex : Example)
    (hok : executeMergeExample sid u db = (.ok ex, db2)) :
    ∃ es, db.exampleSuggestions.find? (fun e => e.id.s == sid.s) = some es
      ∧ ∃ x, x ∈ db2.examples ∧ x.igbo = es.igbo ∧ x.english = es.english
          ∧ x.associatedWords = es.associatedWords := by
  cases hfind : db.exampleSuggestions.find? (fun e => e.id.s == sid.s) with
  | none =>
    exfalso
    simp only [executeMergeExample, run_bind, findExampleSuggestionById, hfind, throwM] at hok
    simp at hok
  | some es =>
    refine ⟨es, rfl, ?_⟩
    rw [executeMergeExample_run_found db sid u es hfind] at hok
    by_cases h1 : es.igbo = "" ∧ es.english = ""
    · rw [if_pos h1] at hok; simp at hok
    · rw [if_neg h1] at hok
      by_cases h2 : (es.associatedWords.any fun a => !(isValidObjectId a)) = true
      · rw [if_pos h2] at hok; simp at hok
      · rw [if_neg h2] at hok
        by_cases h3 : ∀ a ∈ es.associatedWords, (db.words.find? (fun w => w.id.s == a.s)).isSome
        · rw [if_pos h3] at hok
          by_cases h4 : es.associatedWords.length ≠ (uniq es.associatedWords).length
          · rw [if_pos h4] at hok; simp at hok
          · rw [if_neg h4] at hok
            cases ho : es.originalExampleId with
            | none =>
              rw [ho] at hok
              dsimp only at hok
              have hok1 := catchWith_ok_inv _ _ _ _ _ hok
              rcases bind_ok_split _ _ _ _ _ hok1 with ⟨ex0, dbX, hce, hok2⟩
              dsimp only at hok2
              injection hok2 with hp1 hp2
              rcases createExample_ok_inv _ _ _ _ hce with ⟨hex0, hdbX⟩
              refine ⟨ex0, ?_, ?_, ?_, ?_⟩
              · rw [← hp2, hdbX]
                exact self_mem_upsertBy _ _ _
              · rw [hex0]
              · rw [hex0]
              · rw [hex0]
            | some oid =>
              rw [ho] at hok
              dsimp only at hok
              simp only [mergeIntoExample] at hok
              rcases bind_ok_split _ _ _ _ _ hok with ⟨old?, db1, hfou, hok2⟩
              cases old? with
              | none =>
                dsimp only at hok2
                simp [throwM] at hok2
              | some old =>
                dsimp only at hok2
                injection hok2 with hp1 hp2
                rw [ho] at hfou
                rcases exampleFOU_ok_inv _ _ _ _ _ hfou with ⟨hfindex, _, hsome⟩
                have hdb1 := hsome old rfl
                refine ⟨applyExampleSuggestion old es, ?_, rfl, rfl, rfl⟩
                rw [← hp2, hdb1]
                show applyExampleSuggestion old es ∈ db.examples.map
                  (fun e => if e.id.s == oid.s then applyExampleSuggestion e es else e)
                have hmemold := List.mem_of_find?_eq_some hfindex
                have hpold : (old.id.s == oid.s) = true := by
                  have hb := List.find?_some hfindex
                  simpa using hb
                have himg := List.mem_map_of_mem
                  (fun e => if e.id.s == oid.s then applyExampleSuggestion e es else e) hmemold
                dsimp only at himg
                rw [if_pos hpold] at himg
                exact himg
        · rw [if_neg h3] at hok; simp at hok

theorem mergeNested_ok_tied (sid wid : OID) (u : String) (E : ExampleSuggestion)
    (db db2 : DB) (ex : Example)
    (hok : mergeNestedExampleSuggestion sid wid u E db = (.ok ex, db2)) :
    ({ E with associatedWords := relinkNestedAssociatedWords E.associatedWords sid wid } ∈ db2.exampleSuggestions)
    ∧ ∃ x, x ∈ db2.examples ∧ x.igbo = E.igbo ∧ x.english = E.english
        ∧ x.associatedWords = relinkNestedAssociatedWords E.associatedWords sid wid := by
  simp only [mergeNestedExampleSuggestion] at hok
  rcases bind_ok_split _ _ _ _ _ hok with ⟨E'', db1, hsave, hexe⟩
  rcases saveES_ok_inv _ _ _ _ hsave with ⟨hE'', hdb1⟩
  subst hE''
  constructor
  · have hmem : ({ E with associatedWords := relinkNestedAssociatedWords E.associatedWords sid wid } : ExampleSuggestion) ∈ db1.exampleSuggestions := by
      rw [hdb1]
      exact self_mem_upsertBy _ _ _
    have hES := exe_ES ({ E with associatedWords := relinkNestedAssociatedWords E.associatedWords sid wid } : ExampleSuggestion).id u db1
    rw [hexe] at hES
    rw [hES]
    exact hmem
  · rcases exe_ok_tied _ _ _ _ _ hexe with ⟨es, hfindes, x, hxmem, hxi, hxe, hxa⟩
    have hfind1 : db1.exampleSuggestions.find?
        (fun e => e.id.s == ({ E with associatedWords := relinkNestedAssociatedWords E.associatedWords sid wid } : ExampleSuggestion).id.s)
        = some { E with associatedWords := relinkNestedAssociatedWords E.associatedWords sid wid } := by
      rw [hdb1]
      exact find?_upsertBy _ _ _
    rw [hfind1] at hfindes
    injection hfindes with hes
    refine ⟨x, hxmem, ?_, ?_, ?_⟩
    · rw [hxi, ← hes]
    · rw [hxe, ← hes]
    · rw [hxa, ← hes]

theorem cascade_effects_tied (sid wid : OID) (u : String) :
    ∀ (L : List ExampleSuggestion) (db db' : DB),
      cascadeNestedExampleSuggestions sid wid u L db = (.ok (), db') →
      (L.map (fun e => e.id.s)).Nodup →
      (∀ n, db.ctr ≤ n → ∀ e ∈ db.examples, e.id.s ≠ (genId n).s) →
      (∀ F ∈ db.exampleSuggestions, F.originalExampleId = none) →
      (∀ F ∈ L, F.originalExampleId = none) →
      ∀ E ∈ L,
        ({ E with associatedWords := relinkNestedAssociatedWords E.associatedWords sid wid } ∈ db'.exampleSuggestions)
        ∧ ∃ y, y ∈ db'.examples ∧ y.igbo = E.igbo ∧ y.english = E.english
            ∧ y.associatedWords = relinkNestedAssociatedWords E.associatedWords sid wid := by
  intro L
  induction L with
  | nil => intro db db' _ _ _ _ _ E hE; simp at hE
  | cons F rest ih =>
    intro db db' hok hnodup hfresh hnoneAll hLnone E hE
    simp only [cascadeNestedExampleSuggestions] at hok
    rcases bind_ok_split _ _ _ _ _ hok with ⟨ex, db2, hm, hrest⟩
    rcases mergeNested_ok_fresh sid wid u F db db2 ex hm hfresh hnoneAll
      (hLnone F (List.mem_cons_self _ _)) with ⟨hfresh2, hpres2, hnone2⟩
    rcases List.mem_cons.mp hE with rfl | hE'
    · rcases mergeNested_ok_tied sid wid u E db db2 ex hm with ⟨ha, x, hx, hxi, hxe, hxa⟩
      constructor
      · have hneF : ∀ F' ∈ rest,
            ({ E with associatedWords := relinkNestedAssociatedWords E.associatedWords sid wid } : ExampleSuggestion).id.s ≠ F'.id.s := by
          intro F' hF' heq
          exact (List.nodup_cons.mp hnodup).1 (List.mem_map.mpr ⟨F', hF', heq.symm⟩)
        have hpres := cascade_ES_preserve sid wid u rest db2 _ ha hneF
        rw [hrest] at hpres
        exact hpres
      · refine ⟨x, ?_, hxi, hxe, hxa⟩
        exact cascade_ok_fresh sid wid u rest db2 db' hrest hfresh2 hnone2
          (fun G hG => hLnone G (List.mem_cons_of_mem _ hG)) x hx
    · exact ih db2 db' hrest (List.nodup_cons.mp hnodup).2 hfresh2 hnone2
        (fun G hG => hLnone G (List.mem_cons_of_mem _ hG)) E hE'

theorem usam_cascade_tied (sug : WordSuggestion) (wdoc : Word) (u : String)
    (db db' : DB) (s' : WordSuggestion)
    (hok : updateSuggestionAfterMerge sug wdoc u db = (.ok s', db'))
    (hnodup : (db.exampleSuggestions.map (fun e => e.id.s)).Nodup)
    (hfresh : ∀ n, db.ctr ≤ n → ∀ e ∈ db.examples, e.id.s ≠ (genId n).s)
    (hnoneAll : ∀ F ∈ db.exampleSuggestions, F.originalExampleId = none) :
    ∀ E ∈ db.exampleSuggestions, (∃ a ∈ E.associatedWords, a.s = sug.id.s) →
      ({ E with associatedWords := relinkNestedAssociatedWords E.associatedWords sug.id wdoc.id } ∈ db'.exampleSuggestions)
      ∧ ∃ y, y ∈ db'.examples ∧ y.igbo = E.igbo ∧ y.english = E.english
          ∧ y.associatedWords = relinkNestedAssociatedWords E.associatedWords sug.id wdoc.id := by
  intro E hE hEref
  rw [usam_run] at hok
  revert hok
  cases hc : cascadeNestedExampleSuggestions sug.id wdoc.id u
      (db.exampleSuggestions.filter (fun e => e.associatedWords.any (fun a => a.s == sug.id.s))) db with
  | mk r1 db1 =>
    intro hok
    cases r1 with
    | error e1 =>
      dsimp only at hok
      injection hok with h1 _
      simp at h1
    | ok a =>
      cases a
      dsimp only at hok
      have hsave := saveWS_state (updateDocumentMerge sug wdoc.id u) db1
      rw [hok] at hsave
      have hEinL : E ∈ db.exampleSuggestions.filter
          (fun e => e.associatedWords.any (fun a => a.s == sug.id.s)) := by
        apply List.mem_filter.mpr
        refine ⟨hE, ?_⟩
        rcases hEref with ⟨a, ha, has⟩
        exact List.any_eq_true.mpr ⟨a, ha, by simpa using has⟩
      have hnodup' : ((db.exampleSuggestions.filter
          (fun e => e.associatedWords.any (fun a => a.s == sug.id.s))).map
            (fun e => e.id.s)).Nodup :=
        List.Nodup.sublist ((List.filter_sublist _).map _) hnodup
      have hLnone : ∀ F ∈ db.exampleSuggestions.filter
          (fun e => e.associatedWords.any (fun a => a.s == sug.id.s)),
          F.originalExampleId = none :=
        fun F hF => hnoneAll F (List.mem_filter.mp hF).1
      rcases cascade_effects_tied sug.id wdoc.id u _ db db1 hc hnodup' hfresh hnoneAll hLnone E hEinL
        with ⟨hmem, y, hy, hyi, hye, hya⟩
      constructor
      · rw [hsave.1]
        exact hmem
      · refine ⟨y, ?_, hyi, hye, hya⟩
        rw [hsave.2]
        exact hy

theorem createEmbedded_ok_fresh (wid : OID) :
    ∀ (exs : List EmbeddedExample) (db db' : DB) (res : List Example),
      createEmbeddedExamples wid exs db = (.ok res, db') →
      (∀ n, db.ctr ≤ n → ∀ e ∈ db.examples, e.id.s ≠ (genId n).s) →
      (∀ n, db'.ctr ≤ n → ∀ e ∈ db'.examples, e.id.s ≠ (genId n).s) := by
  intro exs
  induction exs with
  | nil =>
    intro db db' res hok hfresh
    have h2 : db = db' := congrArg Prod.snd hok
    rw [← h2]
    exact hfresh
  | cons x rest ih =>
    intro db db' res hok hfresh
    simp only [createEmbeddedExamples] at hok
    rcases bind_ok_split _ _ _ _ _ hok with ⟨e1, db1, hce, hok2⟩
    rcases bind_ok_split _ _ _ _ _ hok2 with ⟨es1, db2, hrest, hok3⟩
    injection hok3 with h1 h2
    subst h2
    exact ih db1 db2 es1 hrest (createExample_ok_fresh _ _ _ _ hce hfresh).1

theorem createWord_ok_fresh (d : WordData) (db db' : DB) (w : Word)
    (hok : createWord d db = (.ok w, db'))
    (hfresh : ∀ n, db.ctr ≤ n → ∀ e ∈ db.examples, e.id.s ≠ (genId n).s) :
    ∀ n, db'.ctr ≤ n → ∀ e ∈ db'.examples, e.id.s ≠ (genId n).s := by
  rcases bind_ok_split _ _ _ _ _ hok with ⟨w0, dbC, hdoc, hok2⟩
  rcases createWordDoc_ok_inv _ _ _ _ hdoc with ⟨hw0, hdbC⟩
  rcases bind_ok_split _ _ _ _ _ hok2 with ⟨res, dbD, hemb, hsave⟩
  rcases saveWord_ok_inv _ _ _ _ hsave with ⟨_, hdbE⟩
  have hfreshC : ∀ n, dbC.ctr ≤ n → ∀ e ∈ dbC.examples, e.id.s ≠ (genId n).s := by
    rw [hdbC]
    intro n hn e he
    have hn' : db.ctr + 1 ≤ n := hn
    exact hfresh n (by omega) e he
  have hfreshD := createEmbedded_ok_fresh w0.id d.examples dbC dbD res hemb hfreshC
  rw [hdbE]
  exact hfreshD

/-- C1: for every Word Suggestion successfully processed by `mergeWord`
(create or update branch) and every Example Suggestion whose associated-word
list references the suggestion's own id: afterwards the store holds that
Example Suggestion relinked (the suggestion id filtered out by string form,
the canonical Word's id pushed only if not already present), the relinked
list no longer references the suggestion's id and does reference the
canonical Word's id, and the cascade's invocation of the Example Merge Engine
on that Example Suggestion yields its own canonical Example — one carrying
that suggestion's Igbo and English texts and exactly its relinked
associated-word list, hence associated with the canonical Word's id and not
with the suggestion's id.  Side conditions: nested suggestion ids are
pairwise distinct, no stored canonical Example already uses a client-generated
id string, and the nested suggestions are brand-new (no
`originalExampleId`). -/
theorem mergeWord_cascade_relinks (db : DB) (sug : WordSuggestion) (u : String)
    (W : Word) (db' : DB)
    (hnodup : (db.exampleSuggestions.map (fun e => e.id.s)).Nodup)
    (hfresh : ∀ n, db.ctr ≤ n → ∀ e ∈ db.examples, e.id.s ≠ (genId n).s)
    (horig : ∀ F ∈ db.exampleSuggestions, F.originalExampleId = none)
    (hneqc : sug.originalWordId = none → sug.id.s ≠ (genId db.ctr).s)
    (hnequ : ∀ oid, sug.originalWordId = some oid → sug.id.s ≠ oid.s)
    (hok : mergeWordCore sug u db = (.ok W, db')) :
    ∀ E ∈ db.exampleSuggestions, (∃ a ∈ E.associatedWords, a.s = sug.id.s) →
      ({ E with associatedWords := relinkNestedAssociatedWords E.associatedWords sug.id W.id } ∈ db'.exampleSuggestions)
      ∧ (∀ a ∈ relinkNestedAssociatedWords E.associatedWords sug.id W.id, a.s ≠ sug.id.s)
      ∧ (∃ a ∈ relinkNestedAssociatedWords E.associatedWords sug.id W.id, a.s = W.id.s)
      ∧ (∃ y, y ∈ db'.examples ∧ y.igbo = E.igbo ∧ y.english = E.english
          ∧ y.associatedWords = relinkNestedAssociatedWords E.associatedWords sug.id W.id
          ∧ (∃ a ∈ y.associatedWords, a.s = W.id.s)
          ∧ ∀ a ∈ y.associatedWords, a.s ≠ sug.id.s) := by
  intro E hE hEref
  cases hov : sug.originalWordId with
  | none =>
    rw [mergeWordCore, hov] at hok
    have hok1 := catchWith_ok_inv _ _ _ _ _ hok
    rcases bind_ok_split _ _ _ _ _ hok1 with ⟨word, dbA, hcw, hok2⟩
    rcases bind_ok_split _ _ _ _ _ hok2 with ⟨s1, dbB, husam, hok3⟩
    injection hok3 with h1 h2
    have hWword : W = word := (Except.ok.inj h1).symm
    subst hWword
    subst h2
    rcases bind_ok_split _ _ _ _ _ hcw with ⟨w0, dbC, hdoc, hok4⟩
    rcases createWordDoc_ok_inv _ _ _ _ hdoc with ⟨hw0, hdbC⟩
    rcases bind_ok_split _ _ _ _ _ hok4 with ⟨res, dbD, hemb, hsave⟩
    rcases saveWord_ok_inv _ _ _ _ hsave with ⟨hWsave, hdbE⟩
    have hWid : W.id.s = (genId db.ctr).s := by rw [hWsave, hw0]
    have hneqW : W.id.s ≠ sug.id.s := by
      rw [hWid]
      exact (hneqc hov).symm
    have hinES : dbA.exampleSuggestions = db.exampleSuggestions := by
      have hces := createWord_ES sug.toWordData db
      rw [hcw] at hces
      exact hces
    have hfreshA : ∀ n, dbA.ctr ≤ n → ∀ e ∈ dbA.examples, e.id.s ≠ (genId n).s :=
      createWord_ok_fresh sug.toWordData db dbA W hcw hfresh
    have horigA : ∀ F ∈ dbA.exampleSuggestions, F.originalExampleId = none := by
      rw [hinES]
      exact horig
    have hc := usam_cascade_tied sug W u dbA dbB s1 husam
      (by rw [hinES]; exact hnodup) hfreshA horigA E (by rw [hinES]; exact hE) hEref
    refine ⟨hc.1, ?_, ?_, ?_⟩
    · exact (relinkNested_good E.associatedWords sug.id W.id hneqW).2
    · exact (relinkNested_good E.associatedWords sug.id W.id hneqW).1
    · rcases hc.2 with ⟨y, hy, hyi, hye, hya⟩
      refine ⟨y, hy, hyi, hye, hya, ?_, ?_⟩
      · rw [hya]
        exact (relinkNested_good E.associatedWords sug.id W.id hneqW).1
      · rw [hya]
        exact (relinkNested_good E.associatedWords sug.id W.id hneqW).2
  | some oid =>
    rw [mergeWordCore, hov] at hok
    have hok1 := rethrow_ok_inv _ _ _ _ hok
    rcases bind_ok_split _ _ _ _ _ hok1 with ⟨old?, db1, hfou, hok2⟩
    rw [hov] at hfou
    rcases wordFOU_ok_inv _ _ _ _ _ hfou with ⟨hfind, hnone, hsome⟩
    cases old? with
    | none =>
      dsimp only at hok2
      simp [throwM] at hok2
    | some old =>
      have hdb1 := hsome old rfl
      dsimp only at hok2
      rcases bind_ok_split _ _ _ _ _ hok2 with ⟨s1, db2, husam, hok3⟩
      rw [hov] at hok3
      rcases bind_ok_split _ _ _ _ _ hok3 with ⟨found, db3, hfetch, hok4⟩
      rw [findWordsWithMatchById] at hfetch
      injection hfetch with hf1 hf2
      have h2words : db2.words = db.words.map
          (fun w => if w.id.s == oid.s then applyWordSuggestion w sug else w) := by
        have hu := usam_words sug old u db1
        rw [husam] at hu
        rw [hu, hdb1]
      have hfound : found = (db3.words.filter (fun w => w.id.s == oid.s)).take 1 := by
        rw [← Except.ok.inj hf1, hf2]
      have hhead : found.head? = some (applyWordSuggestion old sug) := by
        rw [hfound, head?_take1, head?_filter_eq_find?, ← hf2, h2words]
        exact find?_map_update oid sug db.words old hfind
      rw [hhead] at hok4
      dsimp only at hok4
      injection hok4 with h1 h2
      have hWold : W = applyWordSuggestion old sug := (Except.ok.inj h1).symm
      subst hWold
      subst h2
      have holdid : old.id.s = oid.s := by
        have hb := List.find?_some hfind
        simpa using hb
      have hneqW : old.id.s ≠ sug.id.s := by
        rw [holdid]
        exact (hnequ oid hov).symm
      have h1ES : db1.exampleSuggestions = db.exampleSuggestions := by rw [hdb1]
      have hfresh1 : ∀ n, db1.ctr ≤ n → ∀ e ∈ db1.examples, e.id.s ≠ (genId n).s := by
        rw [hdb1]
        exact hfresh
      have horig1 : ∀ F ∈ db1.exampleSuggestions, F.originalExampleId = none := by
        rw [h1ES]
        exact horig
      have hc := usam_cascade_tied sug old u db1 db2 s1 husam
        (by rw [h1ES]; exact hnodup) hfresh1 horig1 E (by rw [h1ES]; exact hE) hEref
      refine ⟨?_, ?_, ?_, ?_⟩
      · rw [← hf2]
        exact hc.1
      · exact (relinkNested_good E.associatedWords sug.id (applyWordSuggestion old sug).id hneqW).2
      · exact (relinkNested_good E.associatedWords sug.id (applyWordSuggestion old sug).id hneqW).1
      · rcases hc.2 with ⟨y, hy, hyi, hye, hya⟩
        refine ⟨y, ?_, hyi, hye, ?_, ?_, ?_⟩
        · rw [← hf2]
          exact hy
        · exact hya
        · rw [hya]
          exact (relinkNested_good E.associatedWords sug.id (applyWordSuggestion old sug).id hneqW).1
        · rw [hya]
          exact (relinkNested_good E.associatedWords sug.id (applyWordSuggestion old sug).id hneqW).2

/-- Witness for C1 on `dbC1`: the nested suggestion is relinked to the
freshly created canonical Word's id in the final store. -/
theorem mergeWord_cascade_relinks_witness :
    ({ esOkN with associatedWords := relinkNestedAssociatedWords esOkN.associatedWords sugW.id wNew0.id } : ExampleSuggestion)
      ∈ (mergeWordCore sugW "ed" dbC1).2.exampleSuggestions :=
  (mergeWord_cascade_relinks dbC1 sugW "ed" wNew0 (mergeWordCore sugW "ed" dbC1).2
    (by decide)
    (fun n hn e he => by simp [dbC1] at he)
    (fun F hF => by rw [List.mem_singleton.mp hF]; rfl)
    (fun _ => ne_genId_of_no_a "s0" (by decide) 0)
    (fun oid h => by simp [sugW] at h)
    rfl
    esOkN (by decide) ⟨⟨"s0", 0, true⟩, by decide, rfl⟩).1

/-- Witness for C5 at the create branch on `dbDup`: the new canonical word is
appended to the word store and every pre-existing word is untouched. -/
theorem mergeWord_branch_selection_witness :
    (mergeWordCore sugW "ed" dbDup).2.words = dbDup.words ++ [wNew0] :=
  ((mergeWord_branch_selection dbDup sugW "ed" wNew0 (mergeWordCore sugW "ed" dbDup).2).1
    rfl
    (by
      intro n _ w hw
      have hw' : w = wB1 := List.mem_singleton.mp hw
      subst hw'
      exact ne_genId_of_no_a "b1" (by decide) n)
    rfl).2

end IgboApi
